import Mathlib

/-!
# Stroke mesh generation for closed polylines (`Source.cpp`, `createLine`)

A shallow embedding of the geometric core of `Source.cpp`: the 2D vector type `Vec`,
the mesh record types and `createLine`, which turns a closed polyline and a half-width
into a triangulated ribbon with mitered joins.

Conventions of the embedding.

* `float` values are modelled in exact arithmetic over a linearly ordered field `F`
  (instantiated with `ℝ` in the theorems).  A value is either finite, `Flt.fin x`, or
  non-finite, `Flt.nan`, which stands for NaN and the infinities alike: a division by zero
  gives `Flt.nan` and every operation with a non-finite operand gives `Flt.nan` again.
  The only `float` operation that can turn a non-finite operand into a finite result is a
  division by an infinity, and with finite input coordinates no divisor of `createLine`
  (an edge length or `cross`) is infinite.
* `sqrtf` is a parameter `sq : F → F` of the embedding; the theorems use `Real.sqrt`.
* `unsigned` is a 32-bit machine integer: values are natural numbers, every arithmetic
  operation is reduced modulo `U32 = 2^32`.
* `std::vector` is a `List`, `push_back` appends at the end, and the two `for` loops are
  left folds over `List.range size`.
-/

namespace LineRendering

/-- Modulus of the 32-bit `unsigned` type. -/
def U32 : Nat := 4294967296

/-- A `float` in exact arithmetic: a finite value or a non-finite one. -/
inductive Flt (F : Type) where
  | fin : F → Flt F
  | nan : Flt F
  deriving DecidableEq, Repr

namespace Flt

variable {F : Type} [LinearOrderedField F]

/-- Addition of floats. -/
def add : Flt F → Flt F → Flt F
  | fin a, fin b => fin (a + b)
  | _, _ => nan

/-- Subtraction of floats. -/
def sub : Flt F → Flt F → Flt F
  | fin a, fin b => fin (a - b)
  | _, _ => nan

/-- Multiplication of floats. -/
def mul : Flt F → Flt F → Flt F
  | fin a, fin b => fin (a * b)
  | _, _ => nan

/-- Division of floats: a zero divisor gives a non-finite result. -/
def div : Flt F → Flt F → Flt F
  | fin a, fin b => if b = 0 then nan else fin (a / b)
  | _, _ => nan

/-- Negation of floats. -/
def neg : Flt F → Flt F
  | fin a => fin (-a)
  | nan => nan

/-- The library function `sqrtf`, with `sq` the square root on non-negative values. -/
def sqrtf (sq : F → F) : Flt F → Flt F
  | fin a => if a < 0 then nan else fin (sq a)
  | nan => nan

instance : Add (Flt F) := ⟨add⟩
instance : Sub (Flt F) := ⟨sub⟩
instance : Mul (Flt F) := ⟨mul⟩
instance : Div (Flt F) := ⟨div⟩
instance : Neg (Flt F) := ⟨neg⟩

/-- The comparison `a <= b` of floats: false as soon as an operand is non-finite. -/
def le : Flt F → Flt F → Prop
  | fin a, fin b => a ≤ b
  | _, _ => False

/-- The comparison `a < b` of floats: false as soon as an operand is non-finite. -/
def lt : Flt F → Flt F → Prop
  | fin a, fin b => a < b
  | _, _ => False

instance : LE (Flt F) := ⟨le⟩
instance : LT (Flt F) := ⟨lt⟩

instance decLe (a b : Flt F) : Decidable (a ≤ b) :=
  match a, b with
  | fin x, fin y => inferInstanceAs (Decidable (x ≤ y))
  | fin _, nan => isFalse (fun h => h)
  | nan, _ => isFalse (fun h => h)

instance decLt (a b : Flt F) : Decidable (a < b) :=
  match a, b with
  | fin x, fin y => inferInstanceAs (Decidable (x < y))
  | fin _, nan => isFalse (fun h => h)
  | nan, _ => isFalse (fun h => h)

/-- Absolute value of a float. -/
def abs : Flt F → Flt F
  | fin a => fin |a|
  | nan => nan

end Flt

/-- The struct `Vec`: two floats. -/
structure Vec (F : Type) where
  x : Flt F
  y : Flt F
  deriving DecidableEq, Repr

namespace Vec

variable {F : Type} [LinearOrderedField F]

/-- The member `Vec::operator+`. -/
def add (a other : Vec F) : Vec F := ⟨a.x + other.x, a.y + other.y⟩

/-- Binary `Vec::operator-`. -/
def sub (a other : Vec F) : Vec F := ⟨a.x - other.x, a.y - other.y⟩

/-- The member `Vec::operator*(float)`. -/
def mul (a : Vec F) (t : Flt F) : Vec F := ⟨a.x * t, a.y * t⟩

/-- The member `Vec::operator/(float)`. -/
def div (a : Vec F) (t : Flt F) : Vec F := ⟨a.x / t, a.y / t⟩

/-- Unary `Vec::operator-`. -/
def neg (a : Vec F) : Vec F := ⟨-a.x, -a.y⟩

instance : Add (Vec F) := ⟨add⟩
instance : Sub (Vec F) := ⟨sub⟩
instance : HMul (Vec F) (Flt F) (Vec F) := ⟨mul⟩
instance : HDiv (Vec F) (Flt F) (Vec F) := ⟨div⟩
instance : Neg (Vec F) := ⟨neg⟩

/-- The member `Vec::rot`: the quarter turn `(x, y) ↦ (-y, +x)`. -/
def rot (a : Vec F) : Vec F := ⟨-a.y, a.x⟩

/-- The member `Vec::dot`. -/
def dot (a other : Vec F) : Flt F := a.x * other.x + a.y * other.y

/-- The member `Vec::length`. -/
def length (sq : F → F) (a : Vec F) : Flt F := Flt.sqrtf sq (a.x * a.x + a.y * a.y)

/-- The member `Vec::normalized`. -/
def normalized (sq : F → F) (a : Vec F) : Vec F :=
  let l := a.length sq
  ⟨a.x / l, a.y / l⟩

end Vec

/-- The struct `VertexData`: a position and the arc length stored with it. -/
structure VertexData (F : Type) where
  v : Vec F
  l : Flt F
  deriving DecidableEq, Repr

/-- The struct `Mesh`: a vertex buffer and an index buffer of `unsigned` values. -/
structure Mesh (F : Type) where
  vertices : List (VertexData F)
  indices : List Nat
  deriving DecidableEq, Repr

section CreateLine

variable {F : Type} [LinearOrderedField F]

/-- Element access `v[i]` of a `std::vector<Vec>`.  Every access of `createLine` is in
bounds (`prevIdx_lt`, `nextIdx_lt`); outside the bounds the embedding returns a non-finite
vector. -/
def idx (v : List (Vec F)) (i : Nat) : Vec F := v.getD i ⟨Flt.nan, Flt.nan⟩

/-- The value `(unsigned)points.size()`. -/
def size (points : List (Vec F)) : Nat := points.length % U32

/-- The index expression `(i + size - 1) % size` in `unsigned` arithmetic. -/
def prevIdx (n i : Nat) : Nat := (((i + n) % U32 + (U32 - 1)) % U32) % n

/-- The index expression `(i + 1) % size` in `unsigned` arithmetic. -/
def nextIdx (n i : Nat) : Nat := ((i + 1) % U32) % n

/-- Local `dir0` of the first loop at iteration `i`. -/
def dir0At (sq : F → F) (points : List (Vec F)) (i : Nat) : Vec F :=
  let prev := idx points (prevIdx (size points) i)
  let cur := idx points i
  (cur - prev).normalized sq

/-- Local `dir1` of the first loop at iteration `i`. -/
def dir1At (sq : F → F) (points : List (Vec F)) (i : Nat) : Vec F :=
  let next := idx points (nextIdx (size points) i)
  let cur := idx points i
  (next - cur).normalized sq

/-- Local `cross` of the first loop at iteration `i`. -/
def crossAt (sq : F → F) (points : List (Vec F)) (i : Nat) : Flt F :=
  let dir0 := dir0At sq points i
  let dir1 := dir1At sq points i
  dir0.x * dir1.y - dir0.y * dir1.x

/-- The lambda `fun` of the first loop, with its captured variables `dir0`, `dir1` and
`cross` passed explicitly. -/
def fun_ (dir0 dir1 : Vec F) (cross : Flt F) (p0 p1 : Vec F) : Vec F :=
  let t := ((p1.x - p0.x) * dir1.y - (p1.y - p0.y) * dir1.x) / cross
  p0 + dir0 * t

/-- The value pushed onto `vertices0` at iteration `i`: the offset point on the side of
`+r0`, `+r1` (side `s = +1`). -/
def outerAt (sq : F → F) (points : List (Vec F)) (w : Flt F) (i : Nat) : Vec F :=
  let cur := idx points i
  let dir0 := dir0At sq points i
  let dir1 := dir1At sq points i
  let r0 := dir0.rot
  let r1 := dir1.rot
  let cross := crossAt sq points i
  fun_ dir0 dir1 cross (cur + r0 * w) (cur + r1 * w)

/-- The value pushed onto `vertices1` at iteration `i`: the offset point on the side of
`-r0`, `-r1` (side `s = -1`). -/
def innerAt (sq : F → F) (points : List (Vec F)) (w : Flt F) (i : Nat) : Vec F :=
  let cur := idx points i
  let dir0 := dir0At sq points i
  let dir1 := dir1At sq points i
  let r0 := dir0.rot
  let r1 := dir1.rot
  let cross := crossAt sq points i
  fun_ dir0 dir1 cross (cur - r0 * w) (cur - r1 * w)

/-- Body of the first loop on the state `(vertices0, vertices1)`: computes the locals
`prev`, `next`, `cur`, `dir0`, `dir1`, `r0`, `r1`, `cross` and pushes one point onto
`vertices0` and one onto `vertices1`. -/
def offsetStep (sq : F → F) (points : List (Vec F)) (w : Flt F)
    (acc : List (Vec F) × List (Vec F)) (i : Nat) : List (Vec F) × List (Vec F) :=
  let prev := idx points (prevIdx (size points) i)
  let next := idx points (nextIdx (size points) i)
  let cur := idx points i
  let dir0 := (cur - prev).normalized sq
  let dir1 := (next - cur).normalized sq
  let r0 := dir0.rot
  let r1 := dir1.rot
  let cross := dir0.x * dir1.y - dir0.y * dir1.x
  (acc.1 ++ [fun_ dir0 dir1 cross (cur + r0 * w) (cur + r1 * w)],
   acc.2 ++ [fun_ dir0 dir1 cross (cur - r0 * w) (cur - r1 * w)])

/-- The first loop: the pair `(vertices0, vertices1)`. -/
def offsets (sq : F → F) (points : List (Vec F)) (w : Flt F) :
    List (Vec F) × List (Vec F) :=
  (List.range (size points)).foldl (offsetStep sq points w) ([], [])

/-- Local `lCur` of the second loop at iteration `i`. -/
def lCurAt (sq : F → F) (points : List (Vec F)) (i : Nat) : Flt F :=
  let ni := nextIdx (size points) i
  (idx points ni - idx points i).length sq

/-- Local `dir` of the second loop at iteration `i`. -/
def dirAt (sq : F → F) (points : List (Vec F)) (i : Nat) : Vec F :=
  let ni := nextIdx (size points) i
  (idx points ni - idx points i) / lCurAt sq points i

/-- Body of the second loop on the state `(mesh, l)`: pushes four vertices and six
indices and advances the running length `l`. -/
def segmentStep (sq : F → F) (points vertices0 vertices1 : List (Vec F))
    (st : Mesh F × Flt F) (i : Nat) : Mesh F × Flt F :=
  let mesh := st.1
  let l := st.2
  let ni := nextIdx (size points) i
  let lCur := lCurAt sq points i
  let dir := dirAt sq points i
  let vs := mesh.vertices ++
    [⟨idx vertices0 i, l + (idx vertices0 i - idx points i).dot dir⟩,
     ⟨idx vertices1 i, l + (idx vertices1 i - idx points i).dot dir⟩,
     ⟨idx vertices0 ni, l + (idx vertices0 ni - idx points i).dot dir⟩,
     ⟨idx vertices1 ni, l + (idx vertices1 ni - idx points i).dot dir⟩]
  let t := (i * 4) % U32
  let is := mesh.indices ++
    [t, (t + 1) % U32, (t + 2) % U32, (t + 1) % U32, (t + 3) % U32, (t + 2) % U32]
  (⟨vs, is⟩, l + lCur)

/-- The second loop run for its first `k` iterations, from the empty mesh and `l = 0`. -/
def segments (sq : F → F) (points vertices0 vertices1 : List (Vec F)) (k : Nat) :
    Mesh F × Flt F :=
  (List.range k).foldl (segmentStep sq points vertices0 vertices1) (⟨[], []⟩, Flt.fin 0)

/-- The function `createLine`. -/
def createLine (sq : F → F) (points : List (Vec F)) (w : Flt F) : Mesh F :=
  let vs := offsets sq points w
  (segments sq points vs.1 vs.2 (size points)).1

/-- The running length `l` at the start of iteration `k` of the second loop: the edge
lengths `lCur` of the iterations `0 .. k-1`, added up from `0.0f` in loop order. -/
def runningTotal (sq : F → F) (points : List (Vec F)) (k : Nat) : Flt F :=
  (List.range k).foldl (fun l i => l + lCurAt sq points i) (Flt.fin 0)

/-- The four vertices pushed by iteration `i` of the second loop when the running length
is `l`. -/
def quadAt (sq : F → F) (points vertices0 vertices1 : List (Vec F)) (l : Flt F) (i : Nat) :
    List (VertexData F) :=
  let ni := nextIdx (size points) i
  let dir := dirAt sq points i
  [⟨idx vertices0 i, l + (idx vertices0 i - idx points i).dot dir⟩,
   ⟨idx vertices1 i, l + (idx vertices1 i - idx points i).dot dir⟩,
   ⟨idx vertices0 ni, l + (idx vertices0 ni - idx points i).dot dir⟩,
   ⟨idx vertices1 ni, l + (idx vertices1 ni - idx points i).dot dir⟩]

/-- The six indices pushed by iteration `i` of the second loop. -/
def trianglesAt (i : Nat) : List Nat :=
  let t := (i * 4) % U32
  [t, (t + 1) % U32, (t + 2) % U32, (t + 1) % U32, (t + 3) % U32, (t + 2) % U32]

/-- The member `mesh.vertices[k].v`. -/
def Mesh.pos (m : Mesh F) (k : Nat) : Vec F :=
  match m.vertices[k]? with
  | some d => d.v
  | none => ⟨Flt.nan, Flt.nan⟩

/-- The member `mesh.vertices[k].l`, the arc length stored with vertex `k`. -/
def Mesh.arc (m : Mesh F) (k : Nat) : Flt F :=
  match m.vertices[k]? with
  | some d => d.l
  | none => Flt.nan

end CreateLine

/-! ## Vocabulary of the properties -/

section Properties

variable {F : Type} [LinearOrderedField F]

/-- Every point of the polyline has finite coordinates. -/
def FinitePts (points : List (Vec F)) : Prop :=
  ∀ p ∈ points, ∃ a b : F, p = ⟨Flt.fin a, Flt.fin b⟩

/-- The polyline is non-degenerate at every vertex the loops visit: `cross` is a finite,
non-zero number there (so both adjacent edges have non-zero length and are not parallel). -/
def NonDegenerate (sq : F → F) (points : List (Vec F)) : Prop :=
  ∀ j, j < size points → ∃ c : F, crossAt sq points j = Flt.fin c ∧ c ≠ 0

/-- The expression `(vertices0[i] - points[i]).dot(dir)` of the second loop: the
displacement of the join at vertex `i`, measured along the edge that leaves `i`. -/
def shiftAt (sq : F → F) (points : List (Vec F)) (w : Flt F) (i : Nat) : Flt F :=
  (outerAt sq points w i - idx points i).dot (dirAt sq points i)

/-- Twice the signed area of the triangle `(a, b, c)`: positive when the three points
turn counter-clockwise in a y-up frame. -/
def signedArea2 (a b c : Vec F) : Flt F :=
  (b.x - a.x) * (c.y - a.y) - (b.y - a.y) * (c.x - a.x)

/-- Two floats have the same strict sign. -/
def SameStrictSign (a b : Flt F) : Prop :=
  (Flt.fin 0 < a ∧ Flt.fin 0 < b) ∨ (a < Flt.fin 0 ∧ b < Flt.fin 0)

/-- The side of `q` with respect to the directed edge `i` of the closed polygon, from
`points[i]` to `points[(i+1) mod n]`: positive on the left of the edge. -/
def sideOf (points : List (Vec F)) (i : Nat) (q : Vec F) : Flt F :=
  signedArea2 (idx points i) (idx points ((i + 1) % points.length)) q

/-- The point `q` lies strictly outside the convex polygon `points`: the line of some
edge separates it strictly from some vertex of the polygon. -/
def StrictlyOutside (points : List (Vec F)) (q : Vec F) : Prop :=
  ∃ i j, i < points.length ∧ j < points.length ∧
    sideOf points i q * sideOf points i (idx points j) < Flt.fin 0

/-- The point `q` lies strictly inside the convex polygon `points`: for every edge it is
strictly on the side of the edge line on which the polygon has a vertex. -/
def StrictlyInside (points : List (Vec F)) (q : Vec F) : Prop :=
  ∀ i, i < points.length → ∃ j, j < points.length ∧
    Flt.fin 0 < sideOf points i q * sideOf points i (idx points j)

/-- The point `q` lies strictly beyond both edges that meet at vertex `i`: the line of the
incoming edge separates it strictly from the next vertex, and the line of the outgoing
edge separates it strictly from the previous vertex. -/
def BeyondEdgesAt (points : List (Vec F)) (i : Nat) (q : Vec F) : Prop :=
  signedArea2 (idx points (prevIdx (size points) i)) (idx points i) q *
      signedArea2 (idx points (prevIdx (size points) i)) (idx points i)
        (idx points (nextIdx (size points) i)) < Flt.fin 0 ∧
  signedArea2 (idx points i) (idx points (nextIdx (size points) i)) q *
      signedArea2 (idx points i) (idx points (nextIdx (size points) i))
        (idx points (prevIdx (size points) i)) < Flt.fin 0

/-- The point `q` lies strictly on the polygon side of both edges that meet at vertex
`i`: on the side of the next vertex for the incoming edge and on the side of the previous
vertex for the outgoing edge. -/
def WithinEdgesAt (points : List (Vec F)) (i : Nat) (q : Vec F) : Prop :=
  Flt.fin 0 < signedArea2 (idx points (prevIdx (size points) i)) (idx points i) q *
      signedArea2 (idx points (prevIdx (size points) i)) (idx points i)
        (idx points (nextIdx (size points) i)) ∧
  Flt.fin 0 < signedArea2 (idx points i) (idx points (nextIdx (size points) i)) q *
      signedArea2 (idx points i) (idx points (nextIdx (size points) i))
        (idx points (prevIdx (size points) i))

end Properties

/-! ## Joins with finite data -/

/-- The numbers behind a join with finite directions: the corner, the unit directions of
the incoming and the outgoing edge, and the two edge lengths. -/
structure JoinData (F : Type) where
  cx : F
  cy : F
  d0x : F
  d0y : F
  d1x : F
  d1y : F
  L0 : F
  L1 : F

namespace JoinData

variable {F : Type} [LinearOrderedField F]

/-- Sine of the turn angle of a join. -/
def c (J : JoinData F) : F := J.d0x * J.d1y - J.d0y * J.d1x

/-- Cosine of the turn angle of a join. -/
def dot (J : JoinData F) : F := J.d0x * J.d1x + J.d0y * J.d1y

/-- First coordinate of the miter direction `(dir1 - dir0) / cross` of a join. -/
def ax (J : JoinData F) : F := (J.d1x - J.d0x) / J.c

/-- Second coordinate of the miter direction `(dir1 - dir0) / cross` of a join. -/
def ay (J : JoinData F) : F := (J.d1y - J.d0y) / J.c

/-- Tangent of half the turn angle of a join, as `(1 - cos) / sin`. -/
def t (J : JoinData F) : F := (1 - J.dot) / J.c

end JoinData

/-- The locals of iteration `i` of the first loop are finite and given by `J`. -/
structure IsJoin (points : List (Vec ℝ)) (i : Nat) (J : JoinData ℝ) : Prop where
  cur : idx points i = ⟨Flt.fin J.cx, Flt.fin J.cy⟩
  prev : idx points (prevIdx (size points) i) =
    ⟨Flt.fin (J.cx - J.L0 * J.d0x), Flt.fin (J.cy - J.L0 * J.d0y)⟩
  next : idx points (nextIdx (size points) i) =
    ⟨Flt.fin (J.cx + J.L1 * J.d1x), Flt.fin (J.cy + J.L1 * J.d1y)⟩
  dir0 : dir0At Real.sqrt points i = ⟨Flt.fin J.d0x, Flt.fin J.d0y⟩
  dir1 : dir1At Real.sqrt points i = ⟨Flt.fin J.d1x, Flt.fin J.d1y⟩
  cross : crossAt Real.sqrt points i = Flt.fin J.c
  lCur : lCurAt Real.sqrt points i = Flt.fin J.L1
  L0_pos : 0 < J.L0
  L1_pos : 0 < J.L1
  unit0 : J.d0x * J.d0x + J.d0y * J.d0y = 1
  unit1 : J.d1x * J.d1x + J.d1y * J.d1y = 1

/-- The square of concrete scenario 1. -/
def square10 (F : Type) [LinearOrderedField F] : List (Vec F) :=
  [⟨Flt.fin 0, Flt.fin 0⟩, ⟨Flt.fin 10, Flt.fin 0⟩, ⟨Flt.fin 10, Flt.fin 10⟩,
   ⟨Flt.fin 0, Flt.fin 10⟩]

/-- The square of concrete scenario 1 traversed in the opposite sense (clockwise in a
y-up frame). -/
def square10cw (F : Type) [LinearOrderedField F] : List (Vec F) :=
  [⟨Flt.fin 0, Flt.fin 0⟩, ⟨Flt.fin 0, Flt.fin 10⟩, ⟨Flt.fin 10, Flt.fin 10⟩,
   ⟨Flt.fin 10, Flt.fin 0⟩]

/-- A polyline with a straight-through vertex: the points 0, 1, 2 are collinear. -/
def straight (F : Type) [LinearOrderedField F] : List (Vec F) :=
  [⟨Flt.fin 0, Flt.fin 0⟩, ⟨Flt.fin 1, Flt.fin 0⟩, ⟨Flt.fin 2, Flt.fin 0⟩,
   ⟨Flt.fin 1, Flt.fin 1⟩]

/-- The polygon passed to `createLine` by `main` (concrete scenario 2). -/
def pentagon (F : Type) [LinearOrderedField F] : List (Vec F) :=
  [⟨Flt.fin 100, Flt.fin 100⟩, ⟨Flt.fin 400, Flt.fin 150⟩, ⟨Flt.fin 400, Flt.fin 350⟩,
   ⟨Flt.fin 300, Flt.fin 200⟩, ⟨Flt.fin 120, Flt.fin 150⟩]


/-! ## The loops as closed forms -/

theorem size_le {F : Type} (points : List (Vec F)) : size points ≤ points.length :=
  Nat.mod_le _ _

/-- An element access within the bounds of the vector returns the element. -/
theorem idx_eq_getElem {F : Type} (points : List (Vec F)) (i : Nat) (hi : i < points.length) :
    idx points i = points[i] := by
  simp [idx, List.getD, hi]

section Loops

variable {F : Type} [LinearOrderedField F]

/-- The body of the first loop pushes the points `outerAt` and `innerAt`. -/
theorem offsetStep_eq (sq : F → F) (points : List (Vec F)) (w : Flt F)
    (acc : List (Vec F) × List (Vec F)) (i : Nat) :
    offsetStep sq points w acc i =
      (acc.1 ++ [outerAt sq points w i], acc.2 ++ [innerAt sq points w i]) := rfl

theorem offsets_fold (sq : F → F) (points : List (Vec F)) (w : Flt F) (k : Nat) :
    (List.range k).foldl (offsetStep sq points w) ([], []) =
      ((List.range k).map (outerAt sq points w), (List.range k).map (innerAt sq points w)) := by
  induction k with
  | zero => rfl
  | succ k ih => simp [List.range_succ, List.foldl_append, ih, offsetStep_eq]

theorem offsets_eq (sq : F → F) (points : List (Vec F)) (w : Flt F) :
    offsets sq points w =
      ((List.range (size points)).map (outerAt sq points w),
       (List.range (size points)).map (innerAt sq points w)) :=
  offsets_fold sq points w _

theorem idx_offsets_fst (sq : F → F) (points : List (Vec F)) (w : Flt F) (i : Nat)
    (hi : i < size points) : idx (offsets sq points w).1 i = outerAt sq points w i := by
  simp [offsets_eq, idx, List.getD, hi]

theorem idx_offsets_snd (sq : F → F) (points : List (Vec F)) (w : Flt F) (i : Nat)
    (hi : i < size points) : idx (offsets sq points w).2 i = innerAt sq points w i := by
  simp [offsets_eq, idx, List.getD, hi]

theorem nextIdx_lt (n i : Nat) (h : 0 < n) : nextIdx n i < n :=
  Nat.mod_lt _ h

theorem prevIdx_lt (n i : Nat) (h : 0 < n) : prevIdx n i < n :=
  Nat.mod_lt _ h

theorem segments_succ (sq : F → F) (points v0 v1 : List (Vec F)) (k : Nat) :
    segments sq points v0 v1 (k + 1) =
      segmentStep sq points v0 v1 (segments sq points v0 v1 k) k := by
  simp [segments, List.range_succ, List.foldl_append]

theorem segmentStep_vertices (sq : F → F) (points v0 v1 : List (Vec F))
    (st : Mesh F × Flt F) (i : Nat) :
    (segmentStep sq points v0 v1 st i).1.vertices =
      st.1.vertices ++ quadAt sq points v0 v1 st.2 i := rfl

theorem segmentStep_indices (sq : F → F) (points v0 v1 : List (Vec F))
    (st : Mesh F × Flt F) (i : Nat) :
    (segmentStep sq points v0 v1 st i).1.indices = st.1.indices ++ trianglesAt i := rfl

theorem segmentStep_l (sq : F → F) (points v0 v1 : List (Vec F))
    (st : Mesh F × Flt F) (i : Nat) :
    (segmentStep sq points v0 v1 st i).2 = st.2 + lCurAt sq points i := rfl

theorem segments_l (sq : F → F) (points v0 v1 : List (Vec F)) (k : Nat) :
    (segments sq points v0 v1 k).2 = runningTotal sq points k := by
  induction k with
  | zero => rfl
  | succ k ih =>
    rw [segments_succ, segmentStep_l, ih]
    simp [runningTotal, List.range_succ, List.foldl_append]

theorem segments_vertices_length (sq : F → F) (points v0 v1 : List (Vec F)) (k : Nat) :
    (segments sq points v0 v1 k).1.vertices.length = 4 * k := by
  induction k with
  | zero => rfl
  | succ k ih =>
    rw [segments_succ, segmentStep_vertices, List.length_append, ih]
    simp [quadAt]; ring

theorem segments_indices_length (sq : F → F) (points v0 v1 : List (Vec F)) (k : Nat) :
    (segments sq points v0 v1 k).1.indices.length = 6 * k := by
  induction k with
  | zero => rfl
  | succ k ih =>
    rw [segments_succ, segmentStep_indices, List.length_append, ih]
    simp [trianglesAt]; ring

theorem segments_vertices_get (sq : F → F) (points v0 v1 : List (Vec F)) (k i j : Nat)
    (hi : i < k) (hj : j < 4) :
    (segments sq points v0 v1 k).1.vertices[4 * i + j]? =
      (quadAt sq points v0 v1 (runningTotal sq points i) i)[j]? := by
  induction k with
  | zero => omega
  | succ k ih =>
    rw [segments_succ, segmentStep_vertices]
    by_cases hik : i < k
    · rw [List.getElem?_append_left (by rw [segments_vertices_length]; omega)]
      exact ih hik
    · have hk : i = k := by omega
      subst hk
      rw [List.getElem?_append_right (by rw [segments_vertices_length]; omega),
        segments_vertices_length, segments_l]
      congr 1
      omega

theorem segments_indices_get (sq : F → F) (points v0 v1 : List (Vec F)) (k i j : Nat)
    (hi : i < k) (hj : j < 6) :
    (segments sq points v0 v1 k).1.indices[6 * i + j]? = (trianglesAt i)[j]? := by
  induction k with
  | zero => omega
  | succ k ih =>
    rw [segments_succ, segmentStep_indices]
    by_cases hik : i < k
    · rw [List.getElem?_append_left (by rw [segments_indices_length]; omega)]
      exact ih hik
    · have hk : i = k := by omega
      subst hk
      rw [List.getElem?_append_right (by rw [segments_indices_length]; omega),
        segments_indices_length]
      congr 1
      omega

theorem mem_trianglesAt_le (i x : Nat) (hx : x ∈ trianglesAt i) : x ≤ 4 * i + 3 := by
  have h1 : (i * 4) % U32 ≤ i * 4 := Nat.mod_le _ _
  have h2 : ∀ j, ((i * 4) % U32 + j) % U32 ≤ (i * 4) % U32 + j := fun j => Nat.mod_le _ _
  have := h2 1
  have := h2 2
  have := h2 3
  simp only [trianglesAt, List.mem_cons, List.mem_singleton, List.not_mem_nil, or_false] at hx
  omega

theorem segments_indices_lt (sq : F → F) (points v0 v1 : List (Vec F)) (k x : Nat)
    (hx : x ∈ (segments sq points v0 v1 k).1.indices) : x < 4 * k := by
  induction k with
  | zero => simp [segments] at hx
  | succ k ih =>
    rw [segments_succ, segmentStep_indices, List.mem_append] at hx
    rcases hx with hx | hx
    · have := ih hx
      omega
    · have := mem_trianglesAt_le k x hx
      omega

end Loops

open Flt

section FltLemmas
variable {F : Type} [LinearOrderedField F]

@[simp] theorem Flt.fin_add (a b : F) : (fin a + fin b : Flt F) = fin (a + b) := rfl
@[simp] theorem Flt.fin_sub (a b : F) : (fin a - fin b : Flt F) = fin (a - b) := rfl
@[simp] theorem Flt.fin_mul (a b : F) : (fin a * fin b : Flt F) = fin (a * b) := rfl
@[simp] theorem Flt.fin_div (a b : F) :
    (fin a / fin b : Flt F) = if b = 0 then nan else fin (a / b) := rfl
@[simp] theorem Flt.neg_fin (a : F) : (-(fin a) : Flt F) = fin (-a) := rfl
@[simp] theorem Flt.nan_add (a : Flt F) : (nan + a : Flt F) = nan := rfl
@[simp] theorem Flt.add_nan (a : Flt F) : (a + nan : Flt F) = nan := by cases a <;> rfl
@[simp] theorem Flt.nan_sub (a : Flt F) : (nan - a : Flt F) = nan := rfl
@[simp] theorem Flt.sub_nan (a : Flt F) : (a - nan : Flt F) = nan := by cases a <;> rfl
@[simp] theorem Flt.nan_mul (a : Flt F) : (nan * a : Flt F) = nan := rfl
@[simp] theorem Flt.mul_nan (a : Flt F) : (a * nan : Flt F) = nan := by cases a <;> rfl
@[simp] theorem Flt.nan_div (a : Flt F) : (nan / a : Flt F) = nan := rfl
@[simp] theorem Flt.div_nan (a : Flt F) : (a / nan : Flt F) = nan := by cases a <;> rfl
@[simp] theorem Flt.neg_nan : (-(nan) : Flt F) = nan := rfl
@[simp] theorem Flt.sqrtf_fin (sq : F → F) (a : F) :
    Flt.sqrtf sq (fin a) = if a < 0 then nan else fin (sq a) := rfl
@[simp] theorem Flt.sqrtf_nan (sq : F → F) : Flt.sqrtf sq (nan : Flt F) = nan := rfl

@[simp] theorem Vec.add_def (a b : Vec F) : a + b = ⟨a.x + b.x, a.y + b.y⟩ := rfl
@[simp] theorem Vec.sub_def (a b : Vec F) : a - b = ⟨a.x - b.x, a.y - b.y⟩ := rfl
@[simp] theorem Vec.mul_def (a : Vec F) (t : Flt F) : a * t = ⟨a.x * t, a.y * t⟩ := rfl
@[simp] theorem Vec.div_def (a : Vec F) (t : Flt F) : a / t = ⟨a.x / t, a.y / t⟩ := rfl
@[simp] theorem Vec.neg_def (a : Vec F) : -a = ⟨-a.x, -a.y⟩ := rfl

end FltLemmas

section RealLayer

theorem Vec.normalized_fin_inv (v : Vec ℝ) (a b : ℝ)
    (h : v.normalized Real.sqrt = ⟨fin a, fin b⟩) :
    ∃ L : ℝ, 0 < L ∧ v.length Real.sqrt = fin L ∧ v = ⟨fin (L * a), fin (L * b)⟩ ∧
      a * a + b * b = 1 := by
  obtain ⟨vx, vy⟩ := v
  cases vx with
  | nan => simp [Vec.normalized, Vec.length] at h
  | fin x =>
    cases vy with
    | nan => simp [Vec.normalized, Vec.length] at h
    | fin y =>
      have hnn : ¬ (x * x + y * y < 0) := not_lt.mpr (add_nonneg (mul_self_nonneg x) (mul_self_nonneg y))
      simp only [Vec.normalized, Vec.length, Flt.fin_mul, Flt.fin_add, Flt.sqrtf_fin, hnn,
        if_false, Flt.fin_div] at h
      by_cases hL : Real.sqrt (x * x + y * y) = 0
      · simp [hL] at h
      · simp only [hL, if_false, Vec.mk.injEq, Flt.fin.injEq] at h
        have hpos : 0 < Real.sqrt (x * x + y * y) :=
          lt_of_le_of_ne (Real.sqrt_nonneg _) (Ne.symm hL)
        have hsq : Real.sqrt (x * x + y * y) * Real.sqrt (x * x + y * y) = x * x + y * y :=
          Real.mul_self_sqrt (add_nonneg (mul_self_nonneg x) (mul_self_nonneg y))
        refine ⟨Real.sqrt (x * x + y * y), hpos, ?_, ?_, ?_⟩
        · simp [Vec.length, hnn]
        · rw [← h.1, ← h.2]
          congr 2 <;> field_simp
        · rw [← h.1, ← h.2]
          field_simp
          linarith

theorem Vec.sub_fin_inv (u v : Vec ℝ) (a b : ℝ) (h : u - v = ⟨fin a, fin b⟩) :
    ∃ ux uy vx vy : ℝ, u = ⟨fin ux, fin uy⟩ ∧ v = ⟨fin vx, fin vy⟩ ∧
      a = ux - vx ∧ b = uy - vy := by
  obtain ⟨ux, uy⟩ := u
  obtain ⟨vx, vy⟩ := v
  cases ux <;> cases uy <;> cases vx <;> cases vy <;> simp at h
  exact ⟨_, _, _, _, rfl, rfl, h.1.symm, h.2.symm⟩

theorem cross_fin_inv (points : List (Vec ℝ)) (i : Nat) (c : ℝ)
    (h : crossAt Real.sqrt points i = fin c) : ∃ J, IsJoin points i J ∧ J.c = c := by
  have h0 := h
  unfold crossAt at h
  obtain ⟨d0x, d0y, hd0⟩ : ∃ a b, dir0At Real.sqrt points i = ⟨fin a, fin b⟩ := by
    rcases hx : dir0At Real.sqrt points i with ⟨x, y⟩
    rw [hx] at h
    cases x <;> cases y <;> simp at h ⊢
  obtain ⟨d1x, d1y, hd1⟩ : ∃ a b, dir1At Real.sqrt points i = ⟨fin a, fin b⟩ := by
    rcases hx : dir1At Real.sqrt points i with ⟨x, y⟩
    rw [hx, hd0] at h
    cases x <;> cases y <;> simp at h ⊢
  rw [hd0, hd1] at h
  simp only [Flt.fin_mul, Flt.fin_sub, Flt.fin.injEq] at h
  obtain ⟨L0, hL0, hl0, hv0, hu0⟩ := Vec.normalized_fin_inv _ _ _ hd0
  obtain ⟨L1, hL1, hl1, hv1, hu1⟩ := Vec.normalized_fin_inv _ _ _ hd1
  obtain ⟨cx, cy, px, py, hc, hp, e1, e2⟩ := Vec.sub_fin_inv _ _ _ _ hv0
  obtain ⟨nx, ny, cx', cy', hn, hc', e3, e4⟩ := Vec.sub_fin_inv _ _ _ _ hv1
  rw [hc] at hc'
  simp only [Vec.mk.injEq, Flt.fin.injEq] at hc'
  obtain ⟨rfl, rfl⟩ := hc'
  refine ⟨⟨cx, cy, d0x, d0y, d1x, d1y, L0, L1⟩, ⟨hc, ?_, ?_, hd0, hd1, ?_, hl1, hL0, hL1, hu0, hu1⟩,
    h⟩
  · rw [hp]; congr 2 <;> linarith
  · rw [hn]; congr 2 <;> linarith
  · rw [h0, ← h]; rfl

theorem JoinData.a_r0 (J : JoinData ℝ) (hc : J.c ≠ 0) : -J.ax * J.d0y + J.ay * J.d0x = 1 := by
  unfold JoinData.ax JoinData.ay
  field_simp
  simp only [JoinData.c]
  ring

theorem JoinData.a_r1 (J : JoinData ℝ) (hc : J.c ≠ 0) : -J.ax * J.d1y + J.ay * J.d1x = 1 := by
  unfold JoinData.ax JoinData.ay
  field_simp
  simp only [JoinData.c]
  ring

theorem JoinData.a_d0 (J : JoinData ℝ) (hc : J.c ≠ 0)
    (u0 : J.d0x * J.d0x + J.d0y * J.d0y = 1) : J.ax * J.d0x + J.ay * J.d0y = -J.t := by
  unfold JoinData.ax JoinData.ay JoinData.t
  field_simp
  simp only [JoinData.dot]
  linear_combination (-1 : ℝ) * u0

theorem JoinData.a_d1 (J : JoinData ℝ) (hc : J.c ≠ 0)
    (u1 : J.d1x * J.d1x + J.d1y * J.d1y = 1) : J.ax * J.d1x + J.ay * J.d1y = J.t := by
  unfold JoinData.ax JoinData.ay JoinData.t
  field_simp
  simp only [JoinData.dot]
  linear_combination u1

/-- The point pushed onto `vertices0` is the corner moved by `w` times the miter
direction. -/
theorem outerAt_eq {points : List (Vec ℝ)} {i : Nat} {J : JoinData ℝ} (hJ : IsJoin points i J)
    (hc : J.c ≠ 0) (w : ℝ) :
    outerAt Real.sqrt points (fin w) i = ⟨fin (J.cx + w * J.ax), fin (J.cy + w * J.ay)⟩ := by
  have u0 := hJ.unit0
  have u1 := hJ.unit1
  unfold outerAt fun_
  rw [hJ.cur, hJ.dir0, hJ.dir1, hJ.cross]
  simp only [Vec.rot, Vec.add_def, Vec.mul_def, Flt.neg_fin, Flt.fin_mul, Flt.fin_add,
    Flt.fin_sub, Flt.fin_div, hc, if_false, Vec.mk.injEq, Flt.fin.injEq, JoinData.ax,
    JoinData.ay]
  constructor
  · field_simp
    simp only [JoinData.c]
    linear_combination (w * J.d1x) * u0 - (w * J.d0x) * u1
  · field_simp
    simp only [JoinData.c]
    linear_combination (w * J.d1y) * u0 - (w * J.d0y) * u1

/-- The point pushed onto `vertices1` is the corner moved by `-w` times the miter
direction. -/
theorem innerAt_eq {points : List (Vec ℝ)} {i : Nat} {J : JoinData ℝ} (hJ : IsJoin points i J)
    (hc : J.c ≠ 0) (w : ℝ) :
    innerAt Real.sqrt points (fin w) i = ⟨fin (J.cx - w * J.ax), fin (J.cy - w * J.ay)⟩ := by
  have u0 := hJ.unit0
  have u1 := hJ.unit1
  unfold innerAt fun_
  rw [hJ.cur, hJ.dir0, hJ.dir1, hJ.cross]
  simp only [Vec.rot, Vec.sub_def, Vec.add_def, Vec.mul_def, Flt.neg_fin, Flt.fin_mul,
    Flt.fin_add, Flt.fin_sub, Flt.fin_div, hc, if_false, Vec.mk.injEq, Flt.fin.injEq,
    JoinData.ax, JoinData.ay]
  constructor
  · field_simp
    simp only [JoinData.c]
    linear_combination (-(w * J.d1x)) * u0 + (w * J.d0x) * u1
  · field_simp
    simp only [JoinData.c]
    linear_combination (-(w * J.d1y)) * u0 + (w * J.d0y) * u1

end RealLayer


theorem size_eq_length {F : Type} (points : List (Vec F)) (hn : points.length < U32) :
    size points = points.length := Nat.mod_eq_of_lt hn

section Counts
variable {F : Type} [LinearOrderedField F]

theorem nextIdx_eq (n i : Nat) (hn : n < U32) (hi : i < n) : nextIdx n i = (i + 1) % n := by
  unfold nextIdx
  rw [Nat.mod_eq_of_lt (by omega : i + 1 < U32)]

/-- Claim C1, as amended: for every input polyline of `n < 2^32` points and every
half-width `w`, `createLine` returns a mesh with exactly `4n` vertices and exactly `6n`
indices, and every index of the index sequence is below `4n`. -/
theorem createLine_counts (sq : F → F) (points : List (Vec F)) (w : Flt F)
    (hn : points.length < U32) :
    (createLine sq points w).vertices.length = 4 * points.length ∧
    (createLine sq points w).indices.length = 6 * points.length ∧
    ∀ x ∈ (createLine sq points w).indices, x < 4 * points.length := by
  unfold createLine
  simp only [size_eq_length points hn]
  exact ⟨segments_vertices_length _ _ _ _ _, segments_indices_length _ _ _ _ _,
    fun x hx => segments_indices_lt _ _ _ _ _ x hx⟩

/-- Witness of claim C1, as amended, on the square of scenario 1. -/
theorem createLine_counts_witness :
    (square10 ℝ).length < U32 ∧
    (createLine Real.sqrt (square10 ℝ) (fin 1)).vertices.length = 4 * (square10 ℝ).length ∧
    (createLine Real.sqrt (square10 ℝ) (fin 1)).indices.length = 6 * (square10 ℝ).length ∧
    ∀ x ∈ (createLine Real.sqrt (square10 ℝ) (fin 1)).indices, x < 4 * (square10 ℝ).length :=
  ⟨by decide, createLine_counts Real.sqrt (square10 ℝ) (fin 1) (by decide)⟩

theorem createLine_of_length_eq (sq : F → F) (points : List (Vec F)) (w : Flt F)
    (h : points.length = U32) : createLine sq points w = ⟨[], []⟩ := by
  have hs : size points = 0 := by
    unfold size
    rw [h]
    exact Nat.mod_self _
  unfold createLine
  simp only [hs]
  rfl

/-- Counterexample to claim C1 as stated: for a polyline of `2^32` points the cast
`(unsigned)points.size()` gives `size = 0`, both loops are skipped and the mesh is empty,
so the number of vertices is not `4n`. -/
theorem createLine_counts_wraps :
    (createLine Real.sqrt (List.replicate 4294967296 (⟨fin 0, fin 0⟩ : Vec ℝ))
      (fin 1)).vertices.length ≠
      4 * (List.replicate 4294967296 (⟨fin 0, fin 0⟩ : Vec ℝ)).length := by
  have h : (List.replicate 4294967296 (⟨fin 0, fin 0⟩ : Vec ℝ)).length = U32 :=
    List.length_replicate _ _
  rw [createLine_of_length_eq Real.sqrt _ _ h, List.length_replicate]
  simp

/-- Claim C2, as amended: for every input polyline of `n < 2^32` points and every edge
index `i < n`, with `next = (i+1) mod n`, the mesh vertices at positions `4i .. 4i+3`
carry the positions outer@i, inner@i, outer@next, inner@next (the values pushed onto
`vertices0` and `vertices1`), and, when `4i + 3 < 2^32` (always so for `n ≤ 2^30`), the
mesh indices at positions `6i .. 6i+5` are exactly `4i, 4i+1, 4i+2, 4i+1, 4i+3, 4i+2`. -/
theorem createLine_quad (sq : F → F) (points : List (Vec F)) (w : Flt F)
    (hn : points.length < U32) (i : Nat) (hi : i < points.length) :
    ((createLine sq points w).vertices[4 * i]?).map VertexData.v =
        some (outerAt sq points w i) ∧
    ((createLine sq points w).vertices[4 * i + 1]?).map VertexData.v =
        some (innerAt sq points w i) ∧
    ((createLine sq points w).vertices[4 * i + 2]?).map VertexData.v =
        some (outerAt sq points w ((i + 1) % points.length)) ∧
    ((createLine sq points w).vertices[4 * i + 3]?).map VertexData.v =
        some (innerAt sq points w ((i + 1) % points.length)) ∧
    (4 * i + 3 < U32 →
      (createLine sq points w).indices[6 * i]? = some (4 * i) ∧
      (createLine sq points w).indices[6 * i + 1]? = some (4 * i + 1) ∧
      (createLine sq points w).indices[6 * i + 2]? = some (4 * i + 2) ∧
      (createLine sq points w).indices[6 * i + 3]? = some (4 * i + 1) ∧
      (createLine sq points w).indices[6 * i + 4]? = some (4 * i + 3) ∧
      (createLine sq points w).indices[6 * i + 5]? = some (4 * i + 2)) := by
  have hs := size_eq_length points hn
  have hi' : i < size points := by rw [hs]; exact hi
  have hni : nextIdx (size points) i = (i + 1) % points.length := by
    rw [hs]; exact nextIdx_eq _ _ hn hi
  have hni' : (i + 1) % points.length < size points := by
    rw [hs]; exact Nat.mod_lt _ (by omega)
  have hv := fun j hj => segments_vertices_get sq points (offsets sq points w).1
    (offsets sq points w).2 (size points) i j hi' hj
  have hx := fun j hj => segments_indices_get sq points (offsets sq points w).1
    (offsets sq points w).2 (size points) i j hi' hj
  have v0 := hv 0 (by omega)
  have v1 := hv 1 (by omega)
  have v2 := hv 2 (by omega)
  have v3 := hv 3 (by omega)
  unfold createLine
  simp only [Nat.add_zero] at v0
  refine ⟨?_, ?_, ?_, ?_, ?_⟩
  · rw [v0]; simp [quadAt, idx_offsets_fst _ _ _ _ hi']
  · rw [v1]; simp [quadAt, idx_offsets_snd _ _ _ _ hi']
  · rw [v2]; simp [quadAt, hni, idx_offsets_fst _ _ _ _ hni']
  · rw [v3]; simp [quadAt, hni, idx_offsets_snd _ _ _ _ hni']
  · intro h4
    have e0 : (i * 4) % U32 = 4 * i := by rw [Nat.mod_eq_of_lt (by omega)]; omega
    have e1 : (4 * i + 1) % U32 = 4 * i + 1 := Nat.mod_eq_of_lt (by omega)
    have e2 : (4 * i + 2) % U32 = 4 * i + 2 := Nat.mod_eq_of_lt (by omega)
    have e3 : (4 * i + 3) % U32 = 4 * i + 3 := Nat.mod_eq_of_lt (by omega)
    have x0 := hx 0 (by omega)
    simp only [Nat.add_zero] at x0
    rw [x0, hx 1 (by omega), hx 2 (by omega), hx 3 (by omega), hx 4 (by omega),
      hx 5 (by omega)]
    simp [trianglesAt, e0, e1, e2, e3]

theorem createLine_indices_get (sq : F → F) (points : List (Vec F)) (w : Flt F) (i j : Nat)
    (hi : i < size points) (hj : j < 6) :
    (createLine sq points w).indices[6 * i + j]? = (trianglesAt i)[j]? :=
  segments_indices_get sq points _ _ (size points) i j hi hj

theorem createLine_index_wraps_aux (sq : F → F) (points : List (Vec F)) (w : Flt F)
    (h : points.length = 1073741825) :
    (createLine sq points w).indices[6 * 1073741824]? = some 0 := by
  have hs : size points = 1073741825 := by
    unfold size
    rw [h]
    rfl
  have := createLine_indices_get sq points w 1073741824 0 (by rw [hs]; decide) (by decide)
  rw [Nat.add_zero] at this
  rw [this]
  rfl

/-- Counterexample to claim C2 as stated: for a polyline of `2^30 + 1` points and the
edge `i = 2^30` the product `i * 4` wraps around in `unsigned` arithmetic, so the index
stored at position `6i` is `0` and not `4i`. -/
theorem createLine_index_wraps :
    (createLine Real.sqrt (List.replicate 1073741825 (⟨fin 0, fin 0⟩ : Vec ℝ))
      (fin 1)).indices[6 * 1073741824]? = some 0 ∧
    (createLine Real.sqrt (List.replicate 1073741825 (⟨fin 0, fin 0⟩ : Vec ℝ))
      (fin 1)).indices[6 * 1073741824]? ≠ some (4 * 1073741824) := by
  have h := createLine_index_wraps_aux Real.sqrt
    (List.replicate 1073741825 (⟨fin 0, fin 0⟩ : Vec ℝ)) (fin 1) (List.length_replicate _ _)
  refine ⟨h, ?_⟩
  rw [h]
  simp

/-- Witness of claim C2, as amended, on the square of scenario 1 at edge 1. -/
theorem createLine_quad_witness :
    (square10 ℝ).length < U32 ∧ 1 < (square10 ℝ).length ∧
    ((createLine Real.sqrt (square10 ℝ) (fin 1)).vertices[4 * 1]?).map VertexData.v =
      some (outerAt Real.sqrt (square10 ℝ) (fin 1) 1) ∧
    4 * 1 + 3 < U32 ∧
    (createLine Real.sqrt (square10 ℝ) (fin 1)).indices[6 * 1]? = some (4 * 1) :=
  ⟨by decide, by decide,
    (createLine_quad Real.sqrt (square10 ℝ) (fin 1) (by decide) 1 (by decide)).1, by decide,
    ((createLine_quad Real.sqrt (square10 ℝ) (fin 1) (by decide) 1
      (by decide)).2.2.2.2 (by decide)).1⟩

end Counts

section Joins

/-- Claim C3: in exact arithmetic, at every vertex `i` visited by the solver whose
`cross` is a finite non-zero number (so both adjacent edges have non-zero length), the
offset points `vertices0[i]` (side `+1`) and `vertices1[i]` (side `-1`) are the
intersections of the two widened edges: `dot(q - cur, r0) = s*w` and
`dot(q - cur, r1) = s*w`, and `q` lies on the line through `cur + r0*s*w` with direction
`dir0` and on the line through `cur + r1*s*w` with direction `dir1`. -/
theorem offset_points_on_widened_edges (points : List (Vec ℝ)) (w : ℝ) (i : Nat)
    (hi : i < size points) (c : ℝ) (hc : crossAt Real.sqrt points i = fin c) (hc0 : c ≠ 0) :
    ((idx (offsets Real.sqrt points (fin w)).1 i - idx points i).dot
        (dir0At Real.sqrt points i).rot = fin w ∧
     (idx (offsets Real.sqrt points (fin w)).1 i - idx points i).dot
        (dir1At Real.sqrt points i).rot = fin w ∧
     (idx (offsets Real.sqrt points (fin w)).2 i - idx points i).dot
        (dir0At Real.sqrt points i).rot = fin (-w) ∧
     (idx (offsets Real.sqrt points (fin w)).2 i - idx points i).dot
        (dir1At Real.sqrt points i).rot = fin (-w)) ∧
    (∃ t : ℝ, idx (offsets Real.sqrt points (fin w)).1 i =
      (idx points i + (dir0At Real.sqrt points i).rot * fin w) +
        dir0At Real.sqrt points i * fin t) ∧
    (∃ u : ℝ, idx (offsets Real.sqrt points (fin w)).1 i =
      (idx points i + (dir1At Real.sqrt points i).rot * fin w) +
        dir1At Real.sqrt points i * fin u) ∧
    (∃ t : ℝ, idx (offsets Real.sqrt points (fin w)).2 i =
      (idx points i - (dir0At Real.sqrt points i).rot * fin w) +
        dir0At Real.sqrt points i * fin t) ∧
    (∃ u : ℝ, idx (offsets Real.sqrt points (fin w)).2 i =
      (idx points i - (dir1At Real.sqrt points i).rot * fin w) +
        dir1At Real.sqrt points i * fin u) := by
  obtain ⟨J, hJ, rfl⟩ := cross_fin_inv points i c hc
  have r0 := J.a_r0 hc0
  have r1 := J.a_r1 hc0
  have d0 := J.a_d0 hc0 hJ.unit0
  have d1 := J.a_d1 hc0 hJ.unit1
  have u0 := hJ.unit0
  have u1 := hJ.unit1
  rw [idx_offsets_fst _ _ _ _ hi, idx_offsets_snd _ _ _ _ hi, outerAt_eq hJ hc0,
    innerAt_eq hJ hc0, hJ.cur, hJ.dir0, hJ.dir1]
  simp only [Vec.rot, Vec.dot, Vec.sub_def, Vec.add_def, Vec.mul_def, Flt.neg_fin,
    Flt.fin_mul, Flt.fin_add, Flt.fin_sub, Vec.mk.injEq, Flt.fin.injEq]
  refine ⟨⟨?_, ?_, ?_, ?_⟩, ⟨-(w * J.t), ?_, ?_⟩, ⟨w * J.t, ?_, ?_⟩, ⟨w * J.t, ?_, ?_⟩,
    ⟨-(w * J.t), ?_, ?_⟩⟩
  · linear_combination w * r0
  · linear_combination w * r1
  · linear_combination (-w) * r0
  · linear_combination (-w) * r1
  · linear_combination (-(w * J.d0y)) * r0 + (w * J.d0x) * d0 - (w * J.ax) * u0
  · linear_combination (w * J.d0x) * r0 + (w * J.d0y) * d0 - (w * J.ay) * u0
  · linear_combination (-(w * J.d1y)) * r1 + (w * J.d1x) * d1 - (w * J.ax) * u1
  · linear_combination (w * J.d1x) * r1 + (w * J.d1y) * d1 - (w * J.ay) * u1
  · linear_combination (w * J.d0y) * r0 - (w * J.d0x) * d0 + (w * J.ax) * u0
  · linear_combination (-(w * J.d0x)) * r0 - (w * J.d0y) * d0 + (w * J.ay) * u0
  · linear_combination (w * J.d1y) * r1 - (w * J.d1x) * d1 + (w * J.ax) * u1
  · linear_combination (-(w * J.d1x)) * r1 - (w * J.d1y) * d1 + (w * J.ay) * u1

end Joins


section Order
variable {F : Type} [LinearOrderedField F]

@[simp] theorem Flt.fin_le (a b : F) : (fin a ≤ fin b) ↔ a ≤ b := Iff.rfl
@[simp] theorem Flt.fin_lt (a b : F) : (fin a < fin b) ↔ a < b := Iff.rfl
@[simp] theorem Flt.not_nan_le (a : Flt F) : ¬ (nan ≤ a) := fun h => h
@[simp] theorem Flt.not_le_nan (a : Flt F) : ¬ (a ≤ nan) := by cases a <;> exact fun h => h
@[simp] theorem Flt.not_nan_lt (a : Flt F) : ¬ (nan < a) := fun h => h
@[simp] theorem Flt.not_lt_nan (a : Flt F) : ¬ (a < nan) := by cases a <;> exact fun h => h
@[simp] theorem Flt.abs_fin (a : F) : Flt.abs (fin a) = fin |a| := rfl
@[simp] theorem Flt.abs_nan : Flt.abs (nan : Flt F) = nan := rfl

theorem prevIdx_nextIdx (n i : Nat) (hn : n ≤ 2147483648) (hi : i < n) :
    prevIdx n (nextIdx n i) = i := by
  have hU : U32 = 4294967296 := rfl
  unfold prevIdx nextIdx
  rw [Nat.mod_eq_of_lt (by omega : i + 1 < U32)]
  have hj : (i + 1) % n < n := Nat.mod_lt _ (by omega)
  rw [Nat.mod_eq_of_lt (by omega : (i + 1) % n + n < U32)]
  have h2 : ((i + 1) % n + n + (U32 - 1)) % U32 = (i + 1) % n + n - 1 := by
    have : (i + 1) % n + n + (U32 - 1) = ((i + 1) % n + n - 1) + U32 := by omega
    rw [this, Nat.add_mod_right, Nat.mod_eq_of_lt (by omega)]
  rw [h2]
  by_cases h : i + 1 < n
  · rw [Nat.mod_eq_of_lt h]
    have : i + 1 + n - 1 = i + n := by omega
    rw [this, Nat.add_mod_right, Nat.mod_eq_of_lt hi]
  · have : i + 1 = n := by omega
    rw [this, Nat.mod_self]
    have : 0 + n - 1 = i := by omega
    rw [this, Nat.mod_eq_of_lt hi]

theorem dir0At_next (sq : F → F) (points : List (Vec F)) (i : Nat)
    (hn : points.length ≤ 2147483648) (hi : i < points.length) :
    dir0At sq points (nextIdx (size points) i) = dir1At sq points i := by
  have hs : size points = points.length :=
    Nat.mod_eq_of_lt (by have : U32 = 4294967296 := rfl; omega)
  unfold dir0At dir1At
  rw [prevIdx_nextIdx _ _ (by omega) (by omega)]

theorem runningTotal_succ (sq : F → F) (points : List (Vec F)) (k : Nat) :
    runningTotal sq points (k + 1) = runningTotal sq points k + lCurAt sq points k := by
  simp [runningTotal, List.range_succ, List.foldl_append]

theorem runningTotal_fin (sq : F → F) (points : List (Vec F)) (k : Nat)
    (h : ∀ j, j < k → ∃ L : F, 0 ≤ L ∧ lCurAt sq points j = fin L) :
    ∃ l : F, 0 ≤ l ∧ runningTotal sq points k = fin l := by
  induction k with
  | zero => exact ⟨0, le_refl _, rfl⟩
  | succ k ih =>
    obtain ⟨l, hl, e⟩ := ih (fun j hj => h j (by omega))
    obtain ⟨L, hL, eL⟩ := h k (by omega)
    exact ⟨l + L, add_nonneg hl hL, by rw [runningTotal_succ, e, eL]; rfl⟩

theorem createLine_vertices_get (sq : F → F) (points : List (Vec F)) (w : Flt F) (i j : Nat)
    (hi : i < size points) (hj : j < 4) :
    (createLine sq points w).vertices[4 * i + j]? =
      (quadAt sq points (offsets sq points w).1 (offsets sq points w).2
        (runningTotal sq points i) i)[j]? :=
  segments_vertices_get sq points _ _ (size points) i j hi hj

end Order

section Segment

theorem nonDegenerate_join {points : List (Vec ℝ)} (hnd : NonDegenerate Real.sqrt points)
    (j : Nat) (hj : j < size points) : ∃ J, IsJoin points j J ∧ J.c ≠ 0 := by
  obtain ⟨c, hc, hc0⟩ := hnd j hj
  obtain ⟨J, hJ, rfl⟩ := cross_fin_inv points j c hc
  exact ⟨J, hJ, hc0⟩

theorem shiftAt_eq {points : List (Vec ℝ)} {i : Nat} {J : JoinData ℝ} (hJ : IsJoin points i J)
    (hc : J.c ≠ 0) (w : ℝ) : shiftAt Real.sqrt points (fin w) i = fin (w * J.t) := by
  have d1 := J.a_d1 hc hJ.unit1
  have hd : dirAt Real.sqrt points i = dir1At Real.sqrt points i := rfl
  unfold shiftAt
  rw [hd, outerAt_eq hJ hc, hJ.cur, hJ.dir1]
  simp only [Vec.dot, Vec.sub_def, Flt.fin_mul, Flt.fin_add, Flt.fin_sub, Flt.fin.injEq]
  linear_combination w * d1

/-- Twice the signed areas of the two triangles of a quad, in coordinates. -/
theorem quad_area_identities (cx cy L w r s ax ay bx b_y ta tb : ℝ)
    (hA1 : -ax * s + ay * r = 1) (hB1 : -bx * s + b_y * r = 1)
    (hA2 : ax * r + ay * s = ta) (hB2 : bx * r + b_y * s = -tb)
    (u1 : r * r + s * s = 1) :
    ((cx - w * ax) - (cx + w * ax)) * ((cy + L * s + w * b_y) - (cy + w * ay)) -
        ((cy - w * ay) - (cy + w * ay)) * ((cx + L * r + w * bx) - (cx + w * ax)) =
      2 * w * (L - w * ta - w * tb) ∧
    ((cx + L * r - w * bx) - (cx - w * ax)) * ((cy + L * s + w * b_y) - (cy - w * ay)) -
        ((cy + L * s - w * b_y) - (cy - w * ay)) * ((cx + L * r + w * bx) - (cx - w * ax)) =
      2 * w * (L + w * ta + w * tb) := by
  constructor
  · linear_combination (2 * w * L + 2 * w ^ 2 * (bx * r + b_y * s)) * hA1 +
      (2 * w ^ 2 * (ax * b_y - ay * bx)) * u1 - (2 * w ^ 2 * (ax * r + ay * s)) * hB1 +
      (2 * w ^ 2) * hB2 - (2 * w ^ 2) * hA2
  · linear_combination (2 * w * L + 2 * w ^ 2 * (ax * r + ay * s)) * hB1 -
      (2 * w ^ 2 * (ax * b_y - ay * bx)) * u1 - (2 * w ^ 2 * (bx * r + b_y * s)) * hA1 -
      (2 * w ^ 2) * hB2 + (2 * w ^ 2) * hA2

theorem Mesh.arc_of_get {F : Type} (m : Mesh F) (k : Nat) (d : VertexData F)
    (h : m.vertices[k]? = some d) : m.arc k = d.l := by
  simp [Mesh.arc, h]

theorem Mesh.pos_of_get {F : Type} (m : Mesh F) (k : Nat) (d : VertexData F)
    (h : m.vertices[k]? = some d) : m.pos k = d.v := by
  simp [Mesh.pos, h]

/-- The values stored for segment `i` of a non-degenerate polyline, in terms of the
running length `l`, the joins `J` at `i` and `K` at the next vertex, and `w`. -/
theorem segment_values (points : List (Vec ℝ)) (w : ℝ) (hn : points.length ≤ 2147483648)
    (hnd : NonDegenerate Real.sqrt points) (i : Nat) (hi : i < points.length) :
    ∃ (l : ℝ) (J K : JoinData ℝ), 0 ≤ l ∧ IsJoin points i J ∧
      IsJoin points ((i + 1) % points.length) K ∧ J.c ≠ 0 ∧ K.c ≠ 0 ∧
      runningTotal Real.sqrt points i = fin l ∧
      (createLine Real.sqrt points (fin w)).arc (4 * i) = fin (l + w * J.t) ∧
      (createLine Real.sqrt points (fin w)).arc (4 * i + 1) = fin (l - w * J.t) ∧
      (createLine Real.sqrt points (fin w)).arc (4 * i + 2) = fin (l + J.L1 - w * K.t) ∧
      (createLine Real.sqrt points (fin w)).arc (4 * i + 3) = fin (l + J.L1 + w * K.t) ∧
      signedArea2 ((createLine Real.sqrt points (fin w)).pos (4 * i))
          ((createLine Real.sqrt points (fin w)).pos (4 * i + 1))
          ((createLine Real.sqrt points (fin w)).pos (4 * i + 2)) =
        fin (2 * w * (J.L1 - w * J.t - w * K.t)) ∧
      signedArea2 ((createLine Real.sqrt points (fin w)).pos (4 * i + 1))
          ((createLine Real.sqrt points (fin w)).pos (4 * i + 3))
          ((createLine Real.sqrt points (fin w)).pos (4 * i + 2)) =
        fin (2 * w * (J.L1 + w * J.t + w * K.t)) := by
  have hU : U32 = 4294967296 := rfl
  have hs : size points = points.length := Nat.mod_eq_of_lt (by omega)
  have hi' : i < size points := by omega
  have hni : nextIdx (size points) i = (i + 1) % points.length := by
    rw [hs]; exact nextIdx_eq _ _ (by omega) hi
  have hni' : (i + 1) % points.length < size points := by
    rw [hs]; exact Nat.mod_lt _ (by omega)
  obtain ⟨J, hJ, hc⟩ := nonDegenerate_join hnd i hi'
  obtain ⟨K, hK, hk⟩ := nonDegenerate_join hnd _ hni'
  obtain ⟨l, hl, el⟩ := runningTotal_fin Real.sqrt points i (fun j hj => by
    obtain ⟨Jj, hJj, _⟩ := nonDegenerate_join hnd j (by omega)
    exact ⟨Jj.L1, le_of_lt hJj.L1_pos, hJj.lCur⟩)
  -- the join at the next vertex continues the join at `i`
  have hnext := hJ.next
  rw [hni, hK.cur] at hnext
  simp only [Vec.mk.injEq, Flt.fin.injEq] at hnext
  obtain ⟨ex, ey⟩ := hnext
  have hdir := dir0At_next Real.sqrt points i hn hi
  rw [hni, hK.dir0, hJ.dir1] at hdir
  simp only [Vec.mk.injEq, Flt.fin.injEq] at hdir
  obtain ⟨edx, edy⟩ := hdir
  have hA1 := J.a_r1 hc
  have hA2 := J.a_d1 hc hJ.unit1
  have hB1 := K.a_r0 hk
  have hB2 := K.a_d0 hk hK.unit0
  rw [edx, edy] at hB1 hB2
  have u1 := hJ.unit1
  have hd : dirAt Real.sqrt points i = ⟨fin J.d1x, fin J.d1y⟩ := hJ.dir1
  have hq : quadAt Real.sqrt points (offsets Real.sqrt points (fin w)).1
      (offsets Real.sqrt points (fin w)).2 (fin l) i =
      [⟨⟨fin (J.cx + w * J.ax), fin (J.cy + w * J.ay)⟩, fin (l + w * J.t)⟩,
       ⟨⟨fin (J.cx - w * J.ax), fin (J.cy - w * J.ay)⟩, fin (l - w * J.t)⟩,
       ⟨⟨fin (K.cx + w * K.ax), fin (K.cy + w * K.ay)⟩, fin (l + J.L1 - w * K.t)⟩,
       ⟨⟨fin (K.cx - w * K.ax), fin (K.cy - w * K.ay)⟩, fin (l + J.L1 + w * K.t)⟩] := by
    unfold quadAt
    simp only [hni, idx_offsets_fst _ _ _ _ hi', idx_offsets_snd _ _ _ _ hi',
      idx_offsets_fst _ _ _ _ hni', idx_offsets_snd _ _ _ _ hni', outerAt_eq hJ hc,
      innerAt_eq hJ hc, outerAt_eq hK hk, innerAt_eq hK hk, hd, hJ.cur, Vec.dot, Vec.sub_def,
      Flt.fin_mul, Flt.fin_add, Flt.fin_sub]
    rw [ex, ey]
    refine congrArg₂ _ (congrArg₂ _ rfl (congrArg _ ?_)) (congrArg₂ _
      (congrArg₂ _ rfl (congrArg _ ?_)) (congrArg₂ _ (congrArg₂ _ rfl (congrArg _ ?_))
      (congrArg₂ _ (congrArg₂ _ rfl (congrArg _ ?_)) rfl)))
    · linear_combination w * hA2
    · linear_combination (-w) * hA2
    · linear_combination w * hB2 + J.L1 * u1
    · linear_combination (-w) * hB2 + J.L1 * u1
  have g := fun j hj => createLine_vertices_get Real.sqrt points (fin w) i j hi' hj
  have g0 := g 0 (by omega)
  have g1 := g 1 (by omega)
  have g2 := g 2 (by omega)
  have g3 := g 3 (by omega)
  rw [el, hq] at g0 g1 g2 g3
  simp only [Nat.add_zero, List.getElem?_cons_zero, List.getElem?_cons_succ] at g0 g1 g2 g3
  have areas := quad_area_identities J.cx J.cy J.L1 w J.d1x J.d1y J.ax J.ay K.ax K.ay J.t K.t
    hA1 hB1 hA2 hB2 u1
  refine ⟨l, J, K, hl, hJ, hK, hc, hk, el, ?_, ?_, ?_, ?_, ?_, ?_⟩
  · rw [Mesh.arc_of_get _ _ _ g0]
  · rw [Mesh.arc_of_get _ _ _ g1]
  · rw [Mesh.arc_of_get _ _ _ g2]
  · rw [Mesh.arc_of_get _ _ _ g3]
  · rw [Mesh.pos_of_get _ _ _ g0, Mesh.pos_of_get _ _ _ g1, Mesh.pos_of_get _ _ _ g2]
    simp only [signedArea2, Flt.fin_mul, Flt.fin_sub, Flt.fin.injEq]
    rw [ex, ey]
    exact areas.1
  · rw [Mesh.pos_of_get _ _ _ g1, Mesh.pos_of_get _ _ _ g3, Mesh.pos_of_get _ _ _ g2]
    simp only [signedArea2, Flt.fin_mul, Flt.fin_sub, Flt.fin.injEq]
    rw [ex, ey]
    exact areas.2

end Segment


section Concrete

theorem sqrt_hundred : Real.sqrt 100 = 10 := by
  rw [show (100 : ℝ) = 10 * 10 by norm_num]
  exact Real.sqrt_mul_self (by norm_num)

theorem size_square10 : size (square10 ℝ) = 4 := rfl

theorem dir0At_square10 :
    dir0At Real.sqrt (square10 ℝ) 0 = ⟨fin 0, fin (-1)⟩ ∧
    dir0At Real.sqrt (square10 ℝ) 1 = ⟨fin 1, fin 0⟩ ∧
    dir0At Real.sqrt (square10 ℝ) 2 = ⟨fin 0, fin 1⟩ ∧
    dir0At Real.sqrt (square10 ℝ) 3 = ⟨fin (-1), fin 0⟩ := by
  refine ⟨?_, ?_, ?_, ?_⟩ <;>
  · simp only [dir0At, size_square10]
    norm_num [idx, prevIdx, U32, square10, Vec.normalized, Vec.length, sqrt_hundred]

theorem dir1At_square10 :
    dir1At Real.sqrt (square10 ℝ) 0 = ⟨fin 1, fin 0⟩ ∧
    dir1At Real.sqrt (square10 ℝ) 1 = ⟨fin 0, fin 1⟩ ∧
    dir1At Real.sqrt (square10 ℝ) 2 = ⟨fin (-1), fin 0⟩ ∧
    dir1At Real.sqrt (square10 ℝ) 3 = ⟨fin 0, fin (-1)⟩ := by
  refine ⟨?_, ?_, ?_, ?_⟩ <;>
  · simp only [dir1At, size_square10]
    norm_num [idx, nextIdx, U32, square10, Vec.normalized, Vec.length, sqrt_hundred]

theorem crossAt_square10 (i : Nat) (hi : i < 4) :
    crossAt Real.sqrt (square10 ℝ) i = fin 1 := by
  obtain ⟨a0, a1, a2, a3⟩ := dir0At_square10
  obtain ⟨b0, b1, b2, b3⟩ := dir1At_square10
  interval_cases i
  · simp [crossAt, a0, b0]
  · simp [crossAt, a1, b1]
  · simp [crossAt, a2, b2]
  · simp [crossAt, a3, b3]

theorem offsets_square10 (w : ℝ) :
    offsets Real.sqrt (square10 ℝ) (fin w) =
      ([⟨fin w, fin w⟩, ⟨fin (10 - w), fin w⟩, ⟨fin (10 - w), fin (10 - w)⟩,
        ⟨fin w, fin (10 - w)⟩],
       [⟨fin (-w), fin (-w)⟩, ⟨fin (10 + w), fin (-w)⟩, ⟨fin (10 + w), fin (10 + w)⟩,
        ⟨fin (-w), fin (10 + w)⟩]) := by
  obtain ⟨a0, a1, a2, a3⟩ := dir0At_square10
  obtain ⟨b0, b1, b2, b3⟩ := dir1At_square10
  rw [offsets_eq, size_square10, show List.range 4 = [0, 1, 2, 3] from rfl]
  simp only [List.map_cons, List.map_nil, outerAt, innerAt, crossAt_square10 0 (by norm_num),
    crossAt_square10 1 (by norm_num), crossAt_square10 2 (by norm_num),
    crossAt_square10 3 (by norm_num), a0, a1, a2, a3, b0, b1, b2, b3]
  norm_num [fun_, idx, square10, Vec.rot]
  ring

theorem lCurAt_square10 (i : Nat) (hi : i < 4) : lCurAt Real.sqrt (square10 ℝ) i = fin 10 := by
  interval_cases i <;>
  · simp only [lCurAt, size_square10]
    norm_num [idx, nextIdx, U32, square10, Vec.length, sqrt_hundred]

theorem createLine_square10 (w : ℝ) :
    createLine Real.sqrt (square10 ℝ) (fin w) =
      ⟨[⟨⟨fin w, fin w⟩, fin w⟩, ⟨⟨fin (-w), fin (-w)⟩, fin (-w)⟩,
        ⟨⟨fin (10 - w), fin w⟩, fin (10 - w)⟩, ⟨⟨fin (10 + w), fin (-w)⟩, fin (10 + w)⟩,
        ⟨⟨fin (10 - w), fin w⟩, fin (10 + w)⟩, ⟨⟨fin (10 + w), fin (-w)⟩, fin (10 - w)⟩,
        ⟨⟨fin (10 - w), fin (10 - w)⟩, fin (20 - w)⟩,
        ⟨⟨fin (10 + w), fin (10 + w)⟩, fin (20 + w)⟩,
        ⟨⟨fin (10 - w), fin (10 - w)⟩, fin (20 + w)⟩,
        ⟨⟨fin (10 + w), fin (10 + w)⟩, fin (20 - w)⟩,
        ⟨⟨fin w, fin (10 - w)⟩, fin (30 - w)⟩, ⟨⟨fin (-w), fin (10 + w)⟩, fin (30 + w)⟩,
        ⟨⟨fin w, fin (10 - w)⟩, fin (30 + w)⟩, ⟨⟨fin (-w), fin (10 + w)⟩, fin (30 - w)⟩,
        ⟨⟨fin w, fin w⟩, fin (40 - w)⟩, ⟨⟨fin (-w), fin (-w)⟩, fin (40 + w)⟩],
       [0, 1, 2, 1, 3, 2, 4, 5, 6, 5, 7, 6, 8, 9, 10, 9, 11, 10, 12, 13, 14, 13, 15, 14]⟩ := by
  obtain ⟨b0, b1, b2, b3⟩ := dir1At_square10
  have d0 : dirAt Real.sqrt (square10 ℝ) 0 = _ := b0
  have d1 : dirAt Real.sqrt (square10 ℝ) 1 = _ := b1
  have d2 : dirAt Real.sqrt (square10 ℝ) 2 = _ := b2
  have d3 : dirAt Real.sqrt (square10 ℝ) 3 = _ := b3
  unfold createLine segments
  rw [offsets_square10, size_square10, show List.range 4 = [0, 1, 2, 3] from rfl]
  simp only [List.foldl_cons, List.foldl_nil, segmentStep, d0, d1, d2, d3,
    lCurAt_square10 0 (by norm_num), lCurAt_square10 1 (by norm_num),
    lCurAt_square10 2 (by norm_num), lCurAt_square10 3 (by norm_num), size_square10]
  norm_num [idx, nextIdx, U32, square10, Vec.dot]
  refine ⟨?_, ?_, ?_, ?_, ?_, ?_, ?_, ?_, ?_⟩ <;> ring

theorem nonDegenerate_square10 : NonDegenerate Real.sqrt (square10 ℝ) := by
  intro j hj
  exact ⟨1, crossAt_square10 j hj, one_ne_zero⟩

theorem finitePts_square10 : FinitePts (square10 ℝ) := by
  intro p hp
  simp only [square10, List.mem_cons, List.mem_singleton, List.not_mem_nil, or_false] at hp
  rcases hp with h | h | h | h <;> exact ⟨_, _, h⟩

end Concrete


section SegmentClaims

theorem lCurAt_fin_of_finite {points : List (Vec ℝ)} (hfin : FinitePts points) (j : Nat)
    (hj : j < size points) : ∃ L : ℝ, 0 ≤ L ∧ lCurAt Real.sqrt points j = fin L := by
  have hlen := size_le points
  have hnj : nextIdx (size points) j < size points := nextIdx_lt _ _ (by omega)
  obtain ⟨a, b, hp⟩ := hfin _ (List.getElem_mem (by omega : j < points.length))
  obtain ⟨a', b', hq⟩ := hfin _
    (List.getElem_mem (by omega : nextIdx (size points) j < points.length))
  rw [← idx_eq_getElem] at hp hq
  have hnn : ¬ ((a' - a) * (a' - a) + (b' - b) * (b' - b) < 0) :=
    not_lt.mpr (add_nonneg (mul_self_nonneg _) (mul_self_nonneg _))
  refine ⟨Real.sqrt ((a' - a) * (a' - a) + (b' - b) * (b' - b)), Real.sqrt_nonneg _, ?_⟩
  unfold lCurAt
  simp only [hp, hq, Vec.length, Vec.sub_def, Flt.fin_sub, Flt.fin_mul, Flt.fin_add,
    Flt.sqrtf_fin, hnn, if_false]

/-- Claim C10: in exact arithmetic, for every polyline with finite coordinates, every
`w` and every vertex `i` visited by the solver whose `cross` is a finite non-zero number,
the two offset points are mirror images through the original vertex,
`vertices0[i] + vertices1[i] = 2 * points[i]`, and the arc lengths stored for the mesh
vertices `4i` and `4i+1` add up to twice the running total at the start of segment `i`. -/
theorem offsets_mirror (points : List (Vec ℝ)) (w : ℝ) (i : Nat) (hi : i < size points)
    (c : ℝ) (hc : crossAt Real.sqrt points i = fin c) (hc0 : c ≠ 0)
    (hfin : FinitePts points) :
    (∃ x y : ℝ, idx points i = ⟨fin x, fin y⟩ ∧
      idx (offsets Real.sqrt points (fin w)).1 i + idx (offsets Real.sqrt points (fin w)).2 i =
        ⟨fin (2 * x), fin (2 * y)⟩) ∧
    (∃ l : ℝ, runningTotal Real.sqrt points i = fin l ∧
      (createLine Real.sqrt points (fin w)).arc (4 * i) +
        (createLine Real.sqrt points (fin w)).arc (4 * i + 1) = fin (2 * l)) := by
  obtain ⟨J, hJ, rfl⟩ := cross_fin_inv points i c hc
  obtain ⟨l, _, el⟩ := runningTotal_fin Real.sqrt points i
    (fun j hj => lCurAt_fin_of_finite hfin j (by omega))
  have hA2 := J.a_d1 hc0 hJ.unit1
  have hd : dirAt Real.sqrt points i = ⟨fin J.d1x, fin J.d1y⟩ := hJ.dir1
  have g := fun j hj => createLine_vertices_get Real.sqrt points (fin w) i j hi hj
  have g0 := g 0 (by omega)
  have g1 := g 1 (by omega)
  rw [el] at g0 g1
  simp only [quadAt, Nat.add_zero, List.getElem?_cons_zero, List.getElem?_cons_succ] at g0 g1
  refine ⟨⟨J.cx, J.cy, hJ.cur, ?_⟩, l, el, ?_⟩
  · rw [idx_offsets_fst _ _ _ _ hi, idx_offsets_snd _ _ _ _ hi, outerAt_eq hJ hc0,
      innerAt_eq hJ hc0]
    simp only [Vec.add_def, Flt.fin_add, Vec.mk.injEq, Flt.fin.injEq]
    constructor <;> ring
  · rw [Mesh.arc_of_get _ _ _ g0, Mesh.arc_of_get _ _ _ g1, idx_offsets_fst _ _ _ _ hi,
      idx_offsets_snd _ _ _ _ hi, outerAt_eq hJ hc0, innerAt_eq hJ hc0, hJ.cur, hd]
    simp only [Vec.dot, Vec.sub_def, Flt.fin_mul, Flt.fin_add, Flt.fin_sub, Flt.fin.injEq]
    ring

/-- Witness of claim C10 on the square of scenario 1 at vertex 1. -/
theorem offsets_mirror_witness :
    ∃ l : ℝ, runningTotal Real.sqrt (square10 ℝ) 1 = fin l ∧
      (createLine Real.sqrt (square10 ℝ) (fin 1)).arc (4 * 1) +
        (createLine Real.sqrt (square10 ℝ) (fin 1)).arc (4 * 1 + 1) = fin (2 * l) :=
  (offsets_mirror (square10 ℝ) 1 1 (by rw [size_square10]; norm_num) 1
    (crossAt_square10 1 (by norm_num)) one_ne_zero finitePts_square10).2

/-- Claim C4, as amended: for every polyline of at most `2^31` points that is
non-degenerate at every vertex, every `w > 0` and every segment `i`, the two triangles
`(4i, 4i+1, 4i+2)` and `(4i+1, 4i+3, 4i+2)` have the same strict orientation if and only if
`|d_i + d_next| < lCur`, where `d_j = dot(vertices0[j] - points[j], dir_j)` is the
displacement of the join at vertex `j` along the edge leaving `j`. -/
theorem triangles_same_orientation_iff (points : List (Vec ℝ)) (w : ℝ) (hw : 0 < w)
    (hn : points.length ≤ 2147483648) (hnd : NonDegenerate Real.sqrt points) (i : Nat)
    (hi : i < points.length) :
    SameStrictSign
        (signedArea2 ((createLine Real.sqrt points (fin w)).pos (4 * i))
          ((createLine Real.sqrt points (fin w)).pos (4 * i + 1))
          ((createLine Real.sqrt points (fin w)).pos (4 * i + 2)))
        (signedArea2 ((createLine Real.sqrt points (fin w)).pos (4 * i + 1))
          ((createLine Real.sqrt points (fin w)).pos (4 * i + 3))
          ((createLine Real.sqrt points (fin w)).pos (4 * i + 2))) ↔
      Flt.abs (shiftAt Real.sqrt points (fin w) i +
        shiftAt Real.sqrt points (fin w) ((i + 1) % points.length)) <
        lCurAt Real.sqrt points i := by
  obtain ⟨l, J, K, _, hJ, hK, hc, hk, _, _, _, _, _, h1, h2⟩ :=
    segment_values points w hn hnd i hi
  have hL := hJ.L1_pos
  rw [h1, h2, shiftAt_eq hJ hc, shiftAt_eq hK hk, hJ.lCur]
  simp only [SameStrictSign, Flt.fin_lt, Flt.fin_add, Flt.abs_fin, abs_lt]
  constructor
  · rintro (⟨p1, p2⟩ | ⟨p1, p2⟩)
    · have q1 : 0 < J.L1 - w * J.t - w * K.t := by
        by_contra hneg
        have := mul_nonpos_of_nonneg_of_nonpos (by positivity : (0 : ℝ) ≤ 2 * w)
          (not_lt.mp hneg)
        linarith
      have q2 : 0 < J.L1 + w * J.t + w * K.t := by
        by_contra hneg
        have := mul_nonpos_of_nonneg_of_nonpos (by positivity : (0 : ℝ) ≤ 2 * w)
          (not_lt.mp hneg)
        linarith
      constructor <;> linarith
    · have q1 : J.L1 - w * J.t - w * K.t < 0 := by
        by_contra hneg
        have := mul_nonneg (by positivity : (0 : ℝ) ≤ 2 * w) (not_lt.mp hneg)
        linarith
      have q2 : J.L1 + w * J.t + w * K.t < 0 := by
        by_contra hneg
        have := mul_nonneg (by positivity : (0 : ℝ) ≤ 2 * w) (not_lt.mp hneg)
        linarith
      linarith
  · rintro ⟨p1, p2⟩
    left
    constructor
    · exact mul_pos (by positivity) (by linarith)
    · exact mul_pos (by positivity) (by linarith)

/-- Claim C7, as amended: for every polyline of at most `2^31` points that is
non-degenerate at every vertex, every `w` and every segment `i`, with `l` the running
total and `d_j = dot(vertices0[j] - points[j], dir_j)`, the stored arc lengths are
`l + d_i`, `l - d_i`, `l + lCur - d_next` and `l + lCur + d_next`, and the two start values
are at most the two end values if and only if `|d_i| + |d_next| ≤ lCur`. -/
theorem arcs_monotone_iff (points : List (Vec ℝ)) (w : ℝ)
    (hn : points.length ≤ 2147483648) (hnd : NonDegenerate Real.sqrt points) (i : Nat)
    (hi : i < points.length) :
    ((createLine Real.sqrt points (fin w)).arc (4 * i) =
        runningTotal Real.sqrt points i + shiftAt Real.sqrt points (fin w) i ∧
     (createLine Real.sqrt points (fin w)).arc (4 * i + 1) =
        runningTotal Real.sqrt points i - shiftAt Real.sqrt points (fin w) i ∧
     (createLine Real.sqrt points (fin w)).arc (4 * i + 2) =
        runningTotal Real.sqrt points i + lCurAt Real.sqrt points i -
          shiftAt Real.sqrt points (fin w) ((i + 1) % points.length) ∧
     (createLine Real.sqrt points (fin w)).arc (4 * i + 3) =
        runningTotal Real.sqrt points i + lCurAt Real.sqrt points i +
          shiftAt Real.sqrt points (fin w) ((i + 1) % points.length)) ∧
    (((createLine Real.sqrt points (fin w)).arc (4 * i) ≤
        (createLine Real.sqrt points (fin w)).arc (4 * i + 2) ∧
      (createLine Real.sqrt points (fin w)).arc (4 * i) ≤
        (createLine Real.sqrt points (fin w)).arc (4 * i + 3) ∧
      (createLine Real.sqrt points (fin w)).arc (4 * i + 1) ≤
        (createLine Real.sqrt points (fin w)).arc (4 * i + 2) ∧
      (createLine Real.sqrt points (fin w)).arc (4 * i + 1) ≤
        (createLine Real.sqrt points (fin w)).arc (4 * i + 3)) ↔
      Flt.abs (shiftAt Real.sqrt points (fin w) i) +
        Flt.abs (shiftAt Real.sqrt points (fin w) ((i + 1) % points.length)) ≤
        lCurAt Real.sqrt points i) := by
  obtain ⟨l, J, K, _, hJ, hK, hc, hk, el, a0, a1, a2, a3, _, _⟩ :=
    segment_values points w hn hnd i hi
  rw [a0, a1, a2, a3, el, shiftAt_eq hJ hc, shiftAt_eq hK hk, hJ.lCur]
  simp only [Flt.fin_le, Flt.fin_add, Flt.fin_sub, Flt.abs_fin, and_self, true_and]
  constructor
  · rintro ⟨p1, p2, p3, p4⟩
    rcases abs_cases (w * J.t) with ⟨e1, _⟩ | ⟨e1, _⟩ <;>
    rcases abs_cases (w * K.t) with ⟨e2, _⟩ | ⟨e2, _⟩ <;> rw [e1, e2] <;> linarith
  · intro h
    have b1 := le_abs_self (w * J.t)
    have b2 := neg_abs_le (w * J.t)
    have b3 := le_abs_self (w * K.t)
    have b4 := neg_abs_le (w * K.t)
    refine ⟨?_, ?_, ?_, ?_⟩ <;> linarith

end SegmentClaims



section SquareChecks

theorem createLine_square10_six_pos :
    (createLine Real.sqrt (square10 ℝ) (fin 6)).pos 0 = ⟨fin 6, fin 6⟩ ∧
    (createLine Real.sqrt (square10 ℝ) (fin 6)).pos 1 = ⟨fin (-6), fin (-6)⟩ ∧
    (createLine Real.sqrt (square10 ℝ) (fin 6)).pos 2 = ⟨fin 4, fin 6⟩ ∧
    (createLine Real.sqrt (square10 ℝ) (fin 6)).pos 3 = ⟨fin 16, fin (-6)⟩ := by
  rw [createLine_square10]
  norm_num [Mesh.pos]

/-- Counterexample to claim C4 as stated: on the 10 by 10 square with `w = 6` the two
triangles of segment 0 have twice the signed areas `-24` and `264`. -/
theorem triangles_opposite_orientation_square :
    NonDegenerate Real.sqrt (square10 ℝ) ∧ (0 : ℝ) < 6 ∧
    ¬ SameStrictSign
        (signedArea2 ((createLine Real.sqrt (square10 ℝ) (fin 6)).pos (4 * 0))
          ((createLine Real.sqrt (square10 ℝ) (fin 6)).pos (4 * 0 + 1))
          ((createLine Real.sqrt (square10 ℝ) (fin 6)).pos (4 * 0 + 2)))
        (signedArea2 ((createLine Real.sqrt (square10 ℝ) (fin 6)).pos (4 * 0 + 1))
          ((createLine Real.sqrt (square10 ℝ) (fin 6)).pos (4 * 0 + 3))
          ((createLine Real.sqrt (square10 ℝ) (fin 6)).pos (4 * 0 + 2))) := by
  obtain ⟨p0, p1, p2, p3⟩ := createLine_square10_six_pos
  refine ⟨nonDegenerate_square10, by norm_num, ?_⟩
  simp only [Nat.mul_zero, Nat.zero_add, p0, p1, p2, p3]
  norm_num [SameStrictSign, signedArea2]

/-- Counterexample to claim C7 as stated: on the 10 by 10 square with `w = 6` the arc
length of mesh vertex 0 is `6`, that of mesh vertex 2 is `4`. -/
theorem arcs_not_monotone_square :
    NonDegenerate Real.sqrt (square10 ℝ) ∧ (0 : ℝ) < 6 ∧
    ¬ ((createLine Real.sqrt (square10 ℝ) (fin 6)).arc (4 * 0) ≤
        (createLine Real.sqrt (square10 ℝ) (fin 6)).arc (4 * 0 + 2)) := by
  refine ⟨nonDegenerate_square10, by norm_num, ?_⟩
  rw [createLine_square10]
  norm_num [Mesh.arc]

/-- Witness of claim C4, as amended, on the square of scenario 1 at segment 0. -/
theorem triangles_same_orientation_iff_witness :
    (0 : ℝ) < 1 ∧ (square10 ℝ).length ≤ 2147483648 ∧ NonDegenerate Real.sqrt (square10 ℝ) ∧
    0 < (square10 ℝ).length ∧
    (SameStrictSign
        (signedArea2 ((createLine Real.sqrt (square10 ℝ) (fin 1)).pos (4 * 0))
          ((createLine Real.sqrt (square10 ℝ) (fin 1)).pos (4 * 0 + 1))
          ((createLine Real.sqrt (square10 ℝ) (fin 1)).pos (4 * 0 + 2)))
        (signedArea2 ((createLine Real.sqrt (square10 ℝ) (fin 1)).pos (4 * 0 + 1))
          ((createLine Real.sqrt (square10 ℝ) (fin 1)).pos (4 * 0 + 3))
          ((createLine Real.sqrt (square10 ℝ) (fin 1)).pos (4 * 0 + 2))) ↔
      Flt.abs (shiftAt Real.sqrt (square10 ℝ) (fin 1) 0 +
        shiftAt Real.sqrt (square10 ℝ) (fin 1) ((0 + 1) % (square10 ℝ).length)) <
        lCurAt Real.sqrt (square10 ℝ) 0) :=
  ⟨one_pos, by decide, nonDegenerate_square10, by decide,
    triangles_same_orientation_iff (square10 ℝ) 1 one_pos (by decide) nonDegenerate_square10 0
      (by decide)⟩

/-- Witness of claim C7, as amended, on the square of scenario 1 at segment 0. -/
theorem arcs_monotone_iff_witness :
    (square10 ℝ).length ≤ 2147483648 ∧ NonDegenerate Real.sqrt (square10 ℝ) ∧
    0 < (square10 ℝ).length ∧
    (createLine Real.sqrt (square10 ℝ) (fin 1)).arc (4 * 0) =
      runningTotal Real.sqrt (square10 ℝ) 0 + shiftAt Real.sqrt (square10 ℝ) (fin 1) 0 :=
  ⟨by decide, nonDegenerate_square10, by decide,
    (arcs_monotone_iff (square10 ℝ) 1 (by decide) nonDegenerate_square10 0 (by decide)).1.1⟩

/-- Witness of claim C3 on the square of scenario 1 at vertex 1 with `w = 1`. -/
theorem offset_points_on_widened_edges_witness :
    1 < size (square10 ℝ) ∧ crossAt Real.sqrt (square10 ℝ) 1 = fin 1 ∧ (1 : ℝ) ≠ 0 ∧
    (idx (offsets Real.sqrt (square10 ℝ) (fin 1)).1 1 - idx (square10 ℝ) 1).dot
        (dir0At Real.sqrt (square10 ℝ) 1).rot = fin 1 ∧
    (idx (offsets Real.sqrt (square10 ℝ) (fin 1)).1 1 - idx (square10 ℝ) 1).dot
        (dir1At Real.sqrt (square10 ℝ) 1).rot = fin 1 :=
  ⟨by decide, crossAt_square10 1 (by norm_num), one_ne_zero,
    (offset_points_on_widened_edges (square10 ℝ) 1 1 (by decide) 1
      (crossAt_square10 1 (by norm_num)) one_ne_zero).1.1,
    (offset_points_on_widened_edges (square10 ℝ) 1 1 (by decide) 1
      (crossAt_square10 1 (by norm_num)) one_ne_zero).1.2.1⟩

end SquareChecks



section Sides

/-- Claim C5, as amended: for every polyline of `n < 2^32` points, every `w > 0` and
every vertex `i` at which the polyline turns right (`cross` finite and negative, as at
every vertex of a convex polygon given clockwise), the point `vertices0[i]` lies strictly
beyond both edges meeting at `i`, hence strictly outside a convex polygon, and the point
`vertices1[i]` lies strictly on the polygon side of both edges meeting at `i`. -/
theorem right_turn_offsets_sides (points : List (Vec ℝ)) (w : ℝ) (hw : 0 < w)
    (hn : points.length < U32) (i : Nat) (hi : i < points.length) (c : ℝ)
    (hc : crossAt Real.sqrt points i = fin c) (hneg : c < 0) :
    StrictlyOutside points (idx (offsets Real.sqrt points (fin w)).1 i) ∧
    BeyondEdgesAt points i (idx (offsets Real.sqrt points (fin w)).1 i) ∧
    WithinEdgesAt points i (idx (offsets Real.sqrt points (fin w)).2 i) := by
  have hs := size_eq_length points hn
  have hi' : i < size points := by rw [hs]; exact hi
  have hni : nextIdx (size points) i = (i + 1) % points.length := by
    rw [hs]; exact nextIdx_eq _ _ hn hi
  obtain ⟨J, hJ, rfl⟩ := cross_fin_inv points i c hc
  have hc0 : J.c ≠ 0 := ne_of_lt hneg
  have r0 := J.a_r0 hc0
  have r1 := J.a_r1 hc0
  have u0 := hJ.unit0
  have u1 := hJ.unit1
  have hL0 := hJ.L0_pos
  have hL1 := hJ.L1_pos
  have hcd : J.c = J.d0x * J.d1y - J.d0y * J.d1x := rfl
  -- the four signed areas
  have e1 : ∀ s : ℝ, (J.cx - (J.cx - J.L0 * J.d0x)) * (J.cy + s * J.ay - (J.cy - J.L0 * J.d0y)) -
      (J.cy - (J.cy - J.L0 * J.d0y)) * (J.cx + s * J.ax - (J.cx - J.L0 * J.d0x)) =
      J.L0 * s := fun s => by linear_combination (J.L0 * s) * r0
  have e2 : (J.cx - (J.cx - J.L0 * J.d0x)) * (J.cy + J.L1 * J.d1y - (J.cy - J.L0 * J.d0y)) -
      (J.cy - (J.cy - J.L0 * J.d0y)) * (J.cx + J.L1 * J.d1x - (J.cx - J.L0 * J.d0x)) =
      J.L0 * J.L1 * J.c := by rw [hcd]; ring
  have e3 : ∀ s : ℝ, (J.cx + J.L1 * J.d1x - J.cx) * (J.cy + s * J.ay - J.cy) -
      (J.cy + J.L1 * J.d1y - J.cy) * (J.cx + s * J.ax - J.cx) = J.L1 * s :=
    fun s => by linear_combination (J.L1 * s) * r1
  have e4 : (J.cx + J.L1 * J.d1x - J.cx) * (J.cy - J.L0 * J.d0y - J.cy) -
      (J.cy + J.L1 * J.d1y - J.cy) * (J.cx - J.L0 * J.d0x - J.cx) = J.L0 * J.L1 * J.c := by
    rw [hcd]; ring
  have hLc : J.L0 * J.L1 * J.c < 0 := mul_neg_of_pos_of_neg (mul_pos hL0 hL1) hneg
  have hout : BeyondEdgesAt points i (idx (offsets Real.sqrt points (fin w)).1 i) := by
    rw [idx_offsets_fst _ _ _ _ hi', outerAt_eq hJ hc0]
    unfold BeyondEdgesAt
    rw [hJ.cur, hJ.prev, hJ.next]
    simp only [signedArea2, Flt.fin_mul, Flt.fin_sub, Flt.fin_lt]
    rw [e1 w, e2, e3 w, e4]
    exact ⟨mul_neg_of_pos_of_neg (mul_pos hL0 hw) hLc,
      mul_neg_of_pos_of_neg (mul_pos hL1 hw) hLc⟩
  refine ⟨?_, hout, ?_⟩
  · refine ⟨i, prevIdx (size points) i, hi, ?_, ?_⟩
    · rw [← hs]; exact prevIdx_lt _ _ (by omega)
    · have := hout.2
      unfold sideOf
      rw [← hni]
      exact this
  · rw [idx_offsets_snd _ _ _ _ hi', innerAt_eq hJ hc0]
    unfold WithinEdgesAt
    rw [hJ.cur, hJ.prev, hJ.next]
    simp only [signedArea2, Flt.fin_mul, Flt.fin_sub, Flt.fin_lt]
    have e1m : (J.cx - (J.cx - J.L0 * J.d0x)) * (J.cy - w * J.ay - (J.cy - J.L0 * J.d0y)) -
        (J.cy - (J.cy - J.L0 * J.d0y)) * (J.cx - w * J.ax - (J.cx - J.L0 * J.d0x)) =
        J.L0 * -w := by linear_combination (J.L0 * -w) * r0
    have e3m : (J.cx + J.L1 * J.d1x - J.cx) * (J.cy - w * J.ay - J.cy) -
        (J.cy + J.L1 * J.d1y - J.cy) * (J.cx - w * J.ax - J.cx) = J.L1 * -w := by
      linear_combination (J.L1 * -w) * r1
    rw [e1m, e2, e3m, e4]
    constructor
    · have : J.L0 * -w < 0 := mul_neg_of_pos_of_neg hL0 (by linarith)
      exact mul_pos_of_neg_of_neg this hLc
    · have : J.L1 * -w < 0 := mul_neg_of_pos_of_neg hL1 (by linarith)
      exact mul_pos_of_neg_of_neg this hLc

theorem square10_inside_nine_one : StrictlyInside (square10 ℝ) ⟨fin 9, fin 1⟩ := by
  intro i hi
  have hi4 : i < 4 := hi
  interval_cases i
  · exact ⟨2, by decide, by norm_num [sideOf, signedArea2, idx, square10]⟩
  · exact ⟨3, by decide, by norm_num [sideOf, signedArea2, idx, square10]⟩
  · exact ⟨0, by decide, by norm_num [sideOf, signedArea2, idx, square10]⟩
  · exact ⟨1, by decide, by norm_num [sideOf, signedArea2, idx, square10]⟩

theorem square10_not_outside_nine_one : ¬ StrictlyOutside (square10 ℝ) ⟨fin 9, fin 1⟩ := by
  rintro ⟨i, j, hi, hj, h⟩
  have hi4 : i < 4 := hi
  have hj4 : j < 4 := hj
  interval_cases i <;> interval_cases j <;>
    norm_num [sideOf, signedArea2, idx, square10] at h

theorem idx_offsets_square10_one :
    idx (offsets Real.sqrt (square10 ℝ) (fin 1)).1 1 = ⟨fin 9, fin 1⟩ := by
  rw [offsets_square10]
  norm_num [idx]

theorem crossAt_square10cw (i : Nat) (hi : i < 4) :
    crossAt Real.sqrt (square10cw ℝ) i = fin (-1) := by
  have hs : size (square10cw ℝ) = 4 := rfl
  interval_cases i <;>
  · simp only [crossAt, dir0At, dir1At, hs]
    norm_num [idx, prevIdx, nextIdx, U32, square10cw, Vec.normalized, Vec.length,
      sqrt_hundred]

theorem nonDegenerate_square10cw : NonDegenerate Real.sqrt (square10cw ℝ) := by
  intro j hj
  exact ⟨-1, crossAt_square10cw j hj, by norm_num⟩

theorem idx_offsets_square10cw_one :
    idx (offsets Real.sqrt (square10cw ℝ) (fin 11)).2 1 = ⟨fin 11, fin (-1)⟩ := by
  have hs : size (square10cw ℝ) = 4 := rfl
  rw [idx_offsets_snd _ _ _ _ (by decide)]
  simp only [innerAt, crossAt_square10cw 1 (by norm_num)]
  simp only [dir0At, dir1At, hs]
  norm_num [fun_, idx, prevIdx, nextIdx, U32, square10cw, Vec.normalized, Vec.length,
    Vec.rot, sqrt_hundred]

theorem square10cw_not_inside_eleven : ¬ StrictlyInside (square10cw ℝ) ⟨fin 11, fin (-1)⟩ := by
  intro h
  obtain ⟨j, hj, hpos⟩ := h 3 (by decide)
  have hj4 : j < 4 := hj
  interval_cases j <;> norm_num [sideOf, signedArea2, idx, square10cw] at hpos

/-- Counterexample to claim C5 as stated: on the 10 by 10 square of scenario 1 (given
counter-clockwise) with `w = 1` the point `vertices0[1] = (9, 1)` is strictly inside the
square and not outside it; and on the same square given clockwise with `w = 11` the point
`vertices1[1] = (11, -1)` is not strictly inside the square. -/
theorem outer_point_inside_square :
    (NonDegenerate Real.sqrt (square10 ℝ) ∧ (0 : ℝ) < 1 ∧
      ¬ StrictlyOutside (square10 ℝ) (idx (offsets Real.sqrt (square10 ℝ) (fin 1)).1 1) ∧
      StrictlyInside (square10 ℝ) (idx (offsets Real.sqrt (square10 ℝ) (fin 1)).1 1)) ∧
    (NonDegenerate Real.sqrt (square10cw ℝ) ∧ (0 : ℝ) < 11 ∧
      ¬ StrictlyInside (square10cw ℝ)
        (idx (offsets Real.sqrt (square10cw ℝ) (fin 11)).2 1)) := by
  rw [idx_offsets_square10_one, idx_offsets_square10cw_one]
  exact ⟨⟨nonDegenerate_square10, one_pos, square10_not_outside_nine_one,
    square10_inside_nine_one⟩, nonDegenerate_square10cw, by norm_num,
    square10cw_not_inside_eleven⟩

/-- Witness of claim C5, as amended, on the clockwise square at vertex 1. -/
theorem right_turn_offsets_sides_witness :
    (0 : ℝ) < 1 ∧ (square10cw ℝ).length < U32 ∧ 1 < (square10cw ℝ).length ∧
    crossAt Real.sqrt (square10cw ℝ) 1 = fin (-1) ∧ (-1 : ℝ) < 0 ∧
    StrictlyOutside (square10cw ℝ) (idx (offsets Real.sqrt (square10cw ℝ) (fin 1)).1 1) :=
  ⟨one_pos, by decide, by decide, (crossAt_square10cw 1 (by norm_num)), by norm_num,
    (right_turn_offsets_sides (square10cw ℝ) 1 one_pos (by decide) 1 (by decide) (-1)
      (crossAt_square10cw 1 (by norm_num)) (by norm_num)).1⟩

/-- Counterexample to claim C6 as stated: for the corner `(10, 0)` of the square the
point `vertices0[1]` is `(9, 1)`, not `(11, -1)`. -/
theorem square_outer_miter_not_external :
    idx (square10 ℝ) 1 = ⟨fin 10, fin 0⟩ ∧
    idx (offsets Real.sqrt (square10 ℝ) (fin 1)).1 1 = ⟨fin 9, fin 1⟩ ∧
    idx (offsets Real.sqrt (square10 ℝ) (fin 1)).1 1 ≠ ⟨fin 11, fin (-1)⟩ := by
  rw [idx_offsets_square10_one]
  refine ⟨rfl, rfl, ?_⟩
  intro h
  simp only [Vec.mk.injEq, Flt.fin.injEq] at h
  norm_num at h

theorem square10_inside (x y : ℝ) (hx0 : 0 < x) (hx1 : x < 10) (hy0 : 0 < y) (hy1 : y < 10) :
    StrictlyInside (square10 ℝ) ⟨fin x, fin y⟩ := by
  intro i hi
  have hi4 : i < 4 := hi
  interval_cases i
  · exact ⟨2, by decide, by norm_num [sideOf, signedArea2, idx, square10]; positivity⟩
  · refine ⟨3, by decide, ?_⟩
    norm_num [sideOf, signedArea2, idx, square10]
    linarith
  · refine ⟨0, by decide, ?_⟩
    norm_num [sideOf, signedArea2, idx, square10]
    linarith
  · refine ⟨1, by decide, ?_⟩
    norm_num [sideOf, signedArea2, idx, square10]
    linarith

theorem square10_outside_below (x y : ℝ) (hy : y < 0) :
    StrictlyOutside (square10 ℝ) ⟨fin x, fin y⟩ := by
  refine ⟨0, 2, by decide, by decide, ?_⟩
  norm_num [sideOf, signedArea2, idx, square10]
  linarith

theorem square10_outside_above (x y : ℝ) (hy : 10 < y) :
    StrictlyOutside (square10 ℝ) ⟨fin x, fin y⟩ := by
  refine ⟨2, 0, by decide, by decide, ?_⟩
  norm_num [sideOf, signedArea2, idx, square10]
  linarith

/-- Claim C6, as amended: for the square `[(0,0),(10,0),(10,10),(0,10)]` with `w = 1`,
`createLine` yields 16 vertices and 24 indices; the points `vertices0` are
`(1,1), (9,1), (9,9), (1,9)` and the points `vertices1` are
`(-1,-1), (11,-1), (11,11), (-1,11)`; each lies at distance `w * sqrt 2` from its corner
on the diagonal through it, the points of `vertices0` (side `+1`) strictly inside the
square and the points of `vertices1` (side `-1`) strictly outside. -/
theorem square_mesh_scenario :
    (createLine Real.sqrt (square10 ℝ) (fin 1)).vertices.length = 16 ∧
    (createLine Real.sqrt (square10 ℝ) (fin 1)).indices.length = 24 ∧
    offsets Real.sqrt (square10 ℝ) (fin 1) =
      ([⟨fin 1, fin 1⟩, ⟨fin 9, fin 1⟩, ⟨fin 9, fin 9⟩, ⟨fin 1, fin 9⟩],
       [⟨fin (-1), fin (-1)⟩, ⟨fin 11, fin (-1)⟩, ⟨fin 11, fin 11⟩, ⟨fin (-1), fin 11⟩]) ∧
    (List.range 4).map (fun i =>
        (idx (offsets Real.sqrt (square10 ℝ) (fin 1)).1 i - idx (square10 ℝ) i).length
          Real.sqrt) =
      [fin (1 * Real.sqrt 2), fin (1 * Real.sqrt 2), fin (1 * Real.sqrt 2),
        fin (1 * Real.sqrt 2)] ∧
    (List.range 4).map (fun i =>
        (idx (offsets Real.sqrt (square10 ℝ) (fin 1)).2 i - idx (square10 ℝ) i).length
          Real.sqrt) =
      [fin (1 * Real.sqrt 2), fin (1 * Real.sqrt 2), fin (1 * Real.sqrt 2),
        fin (1 * Real.sqrt 2)] ∧
    (StrictlyInside (square10 ℝ) (idx (offsets Real.sqrt (square10 ℝ) (fin 1)).1 0) ∧
     StrictlyInside (square10 ℝ) (idx (offsets Real.sqrt (square10 ℝ) (fin 1)).1 1) ∧
     StrictlyInside (square10 ℝ) (idx (offsets Real.sqrt (square10 ℝ) (fin 1)).1 2) ∧
     StrictlyInside (square10 ℝ) (idx (offsets Real.sqrt (square10 ℝ) (fin 1)).1 3)) ∧
    (StrictlyOutside (square10 ℝ) (idx (offsets Real.sqrt (square10 ℝ) (fin 1)).2 0) ∧
     StrictlyOutside (square10 ℝ) (idx (offsets Real.sqrt (square10 ℝ) (fin 1)).2 1) ∧
     StrictlyOutside (square10 ℝ) (idx (offsets Real.sqrt (square10 ℝ) (fin 1)).2 2) ∧
     StrictlyOutside (square10 ℝ) (idx (offsets Real.sqrt (square10 ℝ) (fin 1)).2 3)) := by
  have ho : offsets Real.sqrt (square10 ℝ) (fin 1) =
      ([⟨fin 1, fin 1⟩, ⟨fin 9, fin 1⟩, ⟨fin 9, fin 9⟩, ⟨fin 1, fin 9⟩],
       [⟨fin (-1), fin (-1)⟩, ⟨fin 11, fin (-1)⟩, ⟨fin 11, fin 11⟩, ⟨fin (-1), fin 11⟩]) := by
    rw [offsets_square10]
    norm_num
  have hnn : ¬ ((2 : ℝ) < 0) := by norm_num
  rw [ho]
  refine ⟨by rw [createLine_square10]; rfl, by rw [createLine_square10]; rfl, rfl, ?_, ?_,
    ⟨?_, ?_, ?_, ?_⟩, ⟨?_, ?_, ?_, ?_⟩⟩
  · rw [show List.range 4 = [0, 1, 2, 3] from rfl]
    norm_num [idx, square10, Vec.length]
  · rw [show List.range 4 = [0, 1, 2, 3] from rfl]
    norm_num [idx, square10, Vec.length]
  · exact square10_inside 1 1 (by norm_num) (by norm_num) (by norm_num) (by norm_num)
  · exact square10_inside 9 1 (by norm_num) (by norm_num) (by norm_num) (by norm_num)
  · exact square10_inside 9 9 (by norm_num) (by norm_num) (by norm_num) (by norm_num)
  · exact square10_inside 1 9 (by norm_num) (by norm_num) (by norm_num) (by norm_num)
  · exact square10_outside_below (-1) (-1) (by norm_num)
  · exact square10_outside_below 11 (-1) (by norm_num)
  · exact square10_outside_above 11 11 (by norm_num)
  · exact square10_outside_above (-1) 11 (by norm_num)

section Straight
variable {F : Type} [LinearOrderedField F]

theorem Flt.div_fin_zero (x : Flt F) : x / (fin 0 : Flt F) = nan := by
  cases x <;> simp

theorem crossAt_of_dir_eq (sq : F → F) (points : List (Vec F)) (i : Nat) (a b : F)
    (hd0 : dir0At sq points i = ⟨fin a, fin b⟩)
    (hd1 : dir1At sq points i = dir0At sq points i) : crossAt sq points i = fin 0 := by
  unfold crossAt
  rw [hd1, hd0]
  simp [mul_comm]

theorem outerAt_of_cross_zero (sq : F → F) (points : List (Vec F)) (w : Flt F) (i : Nat)
    (h : crossAt sq points i = fin 0) :
    outerAt sq points w i = ⟨nan, nan⟩ ∧ innerAt sq points w i = ⟨nan, nan⟩ := by
  unfold outerAt innerAt fun_
  rw [h]
  simp [Flt.div_fin_zero]

/-- Claim C9, as amended: for every polyline, every `w` and every vertex `i` visited by
the solver at which `dir0` and `dir1` are finite and equal (collinear points, turn angle
0), `cross` is `0`, the division by `cross` is not guarded, and both offset points
`vertices0[i]` and `vertices1[i]` have non-finite coordinates. -/
theorem straight_through_not_finite (sq : F → F) (points : List (Vec F)) (w : Flt F)
    (i : Nat) (hi : i < size points) (a b : F)
    (hd0 : dir0At sq points i = ⟨fin a, fin b⟩)
    (hd1 : dir1At sq points i = dir0At sq points i) :
    crossAt sq points i = fin 0 ∧
    idx (offsets sq points w).1 i = ⟨nan, nan⟩ ∧
    idx (offsets sq points w).2 i = ⟨nan, nan⟩ := by
  have hc := crossAt_of_dir_eq sq points i a b hd0 hd1
  rw [idx_offsets_fst _ _ _ _ hi, idx_offsets_snd _ _ _ _ hi]
  exact ⟨hc, outerAt_of_cross_zero sq points w i hc⟩

end Straight

theorem dir0At_straight_one : dir0At Real.sqrt (straight ℝ) 1 = ⟨fin 1, fin 0⟩ := by
  have hs : size (straight ℝ) = 4 := rfl
  simp only [dir0At, hs]
  norm_num [idx, prevIdx, U32, straight, Vec.normalized, Vec.length]

theorem dir1At_straight_one : dir1At Real.sqrt (straight ℝ) 1 = ⟨fin 1, fin 0⟩ := by
  have hs : size (straight ℝ) = 4 := rfl
  simp only [dir1At, hs]
  norm_num [idx, nextIdx, U32, straight, Vec.normalized, Vec.length]

/-- Witness of claim C9, as amended, on the polyline `straight` at vertex 1. -/
theorem straight_through_not_finite_witness :
    1 < size (straight ℝ) ∧ dir0At Real.sqrt (straight ℝ) 1 = ⟨fin 1, fin 0⟩ ∧
    dir1At Real.sqrt (straight ℝ) 1 = dir0At Real.sqrt (straight ℝ) 1 ∧
    idx (offsets Real.sqrt (straight ℝ) (fin 1)).1 1 = ⟨nan, nan⟩ :=
  ⟨by decide, dir0At_straight_one, dir1At_straight_one.trans dir0At_straight_one.symm,
    (straight_through_not_finite Real.sqrt (straight ℝ) (fin 1) 1 (by decide) 1 0
      dir0At_straight_one (dir1At_straight_one.trans dir0At_straight_one.symm)).2.1⟩

/-- Counterexample to claim C9 as stated: on the polyline `straight` with `w = 1` the
vertex 1 is a straight-through vertex, `cur + r0*w` is `(1, 1)`, and the computed point
`vertices0[1]` is non-finite. -/
theorem straight_offset_is_nan :
    dir0At Real.sqrt (straight ℝ) 1 = dir1At Real.sqrt (straight ℝ) 1 ∧
    idx (straight ℝ) 1 + (dir0At Real.sqrt (straight ℝ) 1).rot * (fin 1 : Flt ℝ) = ⟨fin 1, fin 1⟩ ∧
    idx (offsets Real.sqrt (straight ℝ) (fin 1)).1 1 = ⟨nan, nan⟩ ∧
    idx (offsets Real.sqrt (straight ℝ) (fin 1)).1 1 ≠
      idx (straight ℝ) 1 + (dir0At Real.sqrt (straight ℝ) 1).rot * (fin 1 : Flt ℝ) := by
  have hc := crossAt_of_dir_eq Real.sqrt (straight ℝ) 1 1 0 dir0At_straight_one
    (dir1At_straight_one.trans dir0At_straight_one.symm)
  have hv : idx (offsets Real.sqrt (straight ℝ) (fin 1)).1 1 = ⟨nan, nan⟩ := by
    rw [idx_offsets_fst _ _ _ _ (by decide)]
    exact (outerAt_of_cross_zero Real.sqrt (straight ℝ) (fin 1) 1 hc).1
  have hp : idx (straight ℝ) 1 + (dir0At Real.sqrt (straight ℝ) 1).rot * (fin 1 : Flt ℝ) =
      ⟨fin 1, fin 1⟩ := by
    rw [dir0At_straight_one]
    norm_num [idx, straight, Vec.rot, Vec.mul_def, Vec.add_def]
  refine ⟨dir0At_straight_one.trans dir1At_straight_one.symm, hp, hv, ?_⟩
  rw [hv, hp]
  simp

end Sides



section Pentagon

theorem JoinData.dot_sq_add_c_sq (J : JoinData ℝ) (u0 : J.d0x * J.d0x + J.d0y * J.d0y = 1)
    (u1 : J.d1x * J.d1x + J.d1y * J.d1y = 1) : J.dot * J.dot + J.c * J.c = 1 := by
  simp only [JoinData.dot, JoinData.c]
  linear_combination (J.d1x * J.d1x + J.d1y * J.d1y) * u0 + u1

theorem JoinData.abs_t_le (J : JoinData ℝ) (u0 : J.d0x * J.d0x + J.d0y * J.d0y = 1)
    (u1 : J.d1x * J.d1x + J.d1y * J.d1y = 1) (h : 1 ≤ 4 * J.c * J.c) : |J.t| ≤ 4 := by
  have hs := J.dot_sq_add_c_sq u0 u1
  have hc0 : J.c ≠ 0 := by
    rintro e
    rw [e] at h
    norm_num at h
  have hd1 : J.dot ≤ 1 := by nlinarith [mul_self_nonneg (J.dot - 1), mul_self_nonneg J.c]
  have hd2 : -1 ≤ J.dot := by nlinarith [mul_self_nonneg (J.dot + 1), mul_self_nonneg J.c]
  have hca : 1 ≤ 2 * |J.c| := by
    have h2 : |J.c| * |J.c| = J.c * J.c := abs_mul_abs_self _
    nlinarith [abs_nonneg J.c]
  unfold JoinData.t
  rw [abs_div, div_le_iff₀ (abs_pos.mpr hc0), abs_of_nonneg (by linarith : 0 ≤ 1 - J.dot)]
  linarith

theorem JoinData.t_pos (J : JoinData ℝ) (u0 : J.d0x * J.d0x + J.d0y * J.d0y = 1)
    (u1 : J.d1x * J.d1x + J.d1y * J.d1y = 1) (h : 0 < J.c) : 0 < J.t := by
  have hs := J.dot_sq_add_c_sq u0 u1
  have hd1 : J.dot < 1 := by nlinarith [mul_self_nonneg (J.dot - 1), mul_pos h h]
  exact div_pos (by linarith) h

/-- The value of `cross` for two edge vectors `(a, b)` and `(d, e)` of squared lengths
`M` and `N`. -/
theorem cross_of_edges (a b d e M N : ℝ) (hM : 0 < M) (hN : 0 < N) :
    a / √M * (e / √N) - b / √M * (d / √N) = (a * e - b * d) / (√M * √N) := by
  have h0 : √M ≠ 0 := (Real.sqrt_pos.mpr hM).ne'
  have h1 : √N ≠ 0 := (Real.sqrt_pos.mpr hN).ne'
  field_simp

theorem cross_of_edges_sq (a b d e M N : ℝ) (hM : 0 < M) (hN : 0 < N)
    (h : M * N ≤ 4 * ((a * e - b * d) * (a * e - b * d))) :
    1 ≤ 4 * (a / √M * (e / √N) - b / √M * (d / √N)) *
      (a / √M * (e / √N) - b / √M * (d / √N)) := by
  have h0 : 0 < √M := Real.sqrt_pos.mpr hM
  have h1 : 0 < √N := Real.sqrt_pos.mpr hN
  have e0 : √M * √M = M := Real.mul_self_sqrt hM.le
  have e1 : √N * √N = N := Real.mul_self_sqrt hN.le
  rw [cross_of_edges a b d e M N hM hN]
  have hp : 0 < √M * √N := mul_pos h0 h1
  have hst : (√M * √N) * (√M * √N) = M * N := by rw [mul_mul_mul_comm, e0, e1]
  generalize hc : (a * e - b * d) / (√M * √N) = c
  have hX : a * e - b * d = c * (√M * √N) := by
    rw [← hc]
    field_simp
  have h2 : 1 * (M * N) ≤ 4 * c * c * (M * N) := by
    rw [hX] at h
    calc 1 * (M * N) = M * N := one_mul _
      _ ≤ 4 * (c * (√M * √N) * (c * (√M * √N))) := h
      _ = 4 * c * c * ((√M * √N) * (√M * √N)) := by ring
      _ = 4 * c * c * (M * N) := by rw [hst]
  exact le_of_mul_le_mul_right h2 (mul_pos hM hN)

theorem size_pentagon : size (pentagon ℝ) = 5 := rfl

theorem crossAt_pentagon :
    crossAt Real.sqrt (pentagon ℝ) 0 =
      fin (-20 / √2900 * (50 / √92500) - -50 / √2900 * (300 / √92500)) ∧
    crossAt Real.sqrt (pentagon ℝ) 1 =
      fin (300 / √92500 * (200 / √40000) - 50 / √92500 * (0 / √40000)) ∧
    crossAt Real.sqrt (pentagon ℝ) 2 =
      fin (0 / √40000 * (-150 / √32500) - 200 / √40000 * (-100 / √32500)) ∧
    crossAt Real.sqrt (pentagon ℝ) 3 =
      fin (-100 / √32500 * (-50 / √34900) - -150 / √32500 * (-180 / √34900)) ∧
    crossAt Real.sqrt (pentagon ℝ) 4 =
      fin (-180 / √34900 * (-50 / √2900) - -50 / √34900 * (-20 / √2900)) := by
  refine ⟨?_, ?_, ?_, ?_, ?_⟩ <;>
  · simp only [crossAt, dir0At, dir1At, size_pentagon]
    norm_num [idx, prevIdx, nextIdx, U32, pentagon, Vec.normalized, Vec.length]

theorem pentagon_join_bound (i : Nat) (hi : i < 5) (J : JoinData ℝ)
    (hJ : IsJoin (pentagon ℝ) i J) : 1 ≤ 4 * J.c * J.c := by
  obtain ⟨c0, c1, c2, c3, c4⟩ := crossAt_pentagon
  have hc := hJ.cross
  interval_cases i
  · rw [c0] at hc
    rw [← Flt.fin.inj hc]
    exact cross_of_edges_sq _ _ _ _ _ _ (by norm_num) (by norm_num) (by norm_num)
  · rw [c1] at hc
    rw [← Flt.fin.inj hc]
    exact cross_of_edges_sq _ _ _ _ _ _ (by norm_num) (by norm_num) (by norm_num)
  · rw [c2] at hc
    rw [← Flt.fin.inj hc]
    exact cross_of_edges_sq _ _ _ _ _ _ (by norm_num) (by norm_num) (by norm_num)
  · rw [c3] at hc
    rw [← Flt.fin.inj hc]
    exact cross_of_edges_sq _ _ _ _ _ _ (by norm_num) (by norm_num) (by norm_num)
  · rw [c4] at hc
    rw [← Flt.fin.inj hc]
    exact cross_of_edges_sq _ _ _ _ _ _ (by norm_num) (by norm_num) (by norm_num)

theorem pentagon_join_zero_pos (J : JoinData ℝ) (hJ : IsJoin (pentagon ℝ) 0 J) : 0 < J.c := by
  have hc := hJ.cross
  rw [crossAt_pentagon.1] at hc
  rw [← Flt.fin.inj hc, cross_of_edges _ _ _ _ _ _ (by norm_num) (by norm_num)]
  exact div_pos (by norm_num)
    (mul_pos (Real.sqrt_pos.mpr (by norm_num)) (Real.sqrt_pos.mpr (by norm_num)))

theorem nonDegenerate_pentagon : NonDegenerate Real.sqrt (pentagon ℝ) := by
  intro j hj
  have hj5 : j < 5 := hj
  obtain ⟨c0, c1, c2, c3, c4⟩ := crossAt_pentagon
  have key : ∀ (a b d e M N : ℝ), 0 < M → 0 < N → a * e - b * d ≠ 0 →
      a / √M * (e / √N) - b / √M * (d / √N) ≠ 0 := by
    intro a b d e M N hM hN hne
    rw [cross_of_edges a b d e M N hM hN]
    exact div_ne_zero hne
      (mul_pos (Real.sqrt_pos.mpr hM) (Real.sqrt_pos.mpr hN)).ne'
  interval_cases j
  · exact ⟨_, c0, key _ _ _ _ _ _ (by norm_num) (by norm_num) (by norm_num)⟩
  · exact ⟨_, c1, key _ _ _ _ _ _ (by norm_num) (by norm_num) (by norm_num)⟩
  · exact ⟨_, c2, key _ _ _ _ _ _ (by norm_num) (by norm_num) (by norm_num)⟩
  · exact ⟨_, c3, key _ _ _ _ _ _ (by norm_num) (by norm_num) (by norm_num)⟩
  · exact ⟨_, c4, key _ _ _ _ _ _ (by norm_num) (by norm_num) (by norm_num)⟩

theorem lCurAt_pentagon :
    lCurAt Real.sqrt (pentagon ℝ) 0 = fin √92500 ∧
    lCurAt Real.sqrt (pentagon ℝ) 1 = fin √40000 ∧
    lCurAt Real.sqrt (pentagon ℝ) 2 = fin √32500 ∧
    lCurAt Real.sqrt (pentagon ℝ) 3 = fin √34900 ∧
    lCurAt Real.sqrt (pentagon ℝ) 4 = fin √2900 := by
  refine ⟨?_, ?_, ?_, ?_, ?_⟩ <;>
  · simp only [lCurAt, size_pentagon]
    norm_num [idx, nextIdx, U32, pentagon, Vec.length]

theorem runningTotal_pentagon :
    runningTotal Real.sqrt (pentagon ℝ) 0 = fin 0 ∧
    runningTotal Real.sqrt (pentagon ℝ) 1 = fin (0 + √92500) ∧
    runningTotal Real.sqrt (pentagon ℝ) 2 = fin (0 + √92500 + √40000) ∧
    runningTotal Real.sqrt (pentagon ℝ) 3 = fin (0 + √92500 + √40000 + √32500) ∧
    runningTotal Real.sqrt (pentagon ℝ) 4 = fin (0 + √92500 + √40000 + √32500 + √34900) ∧
    runningTotal Real.sqrt (pentagon ℝ) 5 =
      fin (0 + √92500 + √40000 + √32500 + √34900 + √2900) := by
  obtain ⟨l0, l1, l2, l3, l4⟩ := lCurAt_pentagon
  have r0 : runningTotal Real.sqrt (pentagon ℝ) 0 = fin 0 := rfl
  have r1 := runningTotal_succ Real.sqrt (pentagon ℝ) 0
  rw [r0, l0, Flt.fin_add] at r1
  have r2 := runningTotal_succ Real.sqrt (pentagon ℝ) 1
  rw [r1, l1, Flt.fin_add] at r2
  have r3 := runningTotal_succ Real.sqrt (pentagon ℝ) 2
  rw [r2, l2, Flt.fin_add] at r3
  have r4 := runningTotal_succ Real.sqrt (pentagon ℝ) 3
  rw [r3, l3, Flt.fin_add] at r4
  have r5 := runningTotal_succ Real.sqrt (pentagon ℝ) 4
  rw [r4, l4, Flt.fin_add] at r5
  exact ⟨r0, r1, r2, r3, r4, r5⟩

/-- The arc lengths of segment `i` of the pentagon: the join displacements `a`, `b` are at
most 12, the one at vertex 0 is positive. -/
theorem pentagon_segment (i : Nat) (hi : i < 5) :
    ∃ l L a b : ℝ, runningTotal Real.sqrt (pentagon ℝ) i = fin l ∧
      lCurAt Real.sqrt (pentagon ℝ) i = fin L ∧ |a| ≤ 12 ∧ |b| ≤ 12 ∧
      (i = 0 → 0 < a) ∧ (i = 4 → 0 < b) ∧
      (createLine Real.sqrt (pentagon ℝ) (fin 3)).arc (4 * i) = fin (l + a) ∧
      (createLine Real.sqrt (pentagon ℝ) (fin 3)).arc (4 * i + 1) = fin (l - a) ∧
      (createLine Real.sqrt (pentagon ℝ) (fin 3)).arc (4 * i + 2) = fin (l + L - b) ∧
      (createLine Real.sqrt (pentagon ℝ) (fin 3)).arc (4 * i + 3) = fin (l + L + b) := by
  obtain ⟨l, J, K, _, hJ, hK, _, _, el, a0, a1, a2, a3, _, _⟩ :=
    segment_values (pentagon ℝ) 3 (by decide) nonDegenerate_pentagon i hi
  have hni : (i + 1) % (pentagon ℝ).length < 5 := Nat.mod_lt _ (by decide)
  have bJ := J.abs_t_le hJ.unit0 hJ.unit1 (pentagon_join_bound i hi J hJ)
  have bK := K.abs_t_le hK.unit0 hK.unit1 (pentagon_join_bound _ hni K hK)
  refine ⟨l, J.L1, 3 * J.t, 3 * K.t, el, hJ.lCur, ?_, ?_, ?_, ?_, a0, a1, a2, a3⟩
  · rw [abs_mul, abs_of_pos (by norm_num : (0 : ℝ) < 3)]
    linarith
  · rw [abs_mul, abs_of_pos (by norm_num : (0 : ℝ) < 3)]
    linarith
  · rintro rfl
    have := J.t_pos hJ.unit0 hJ.unit1 (pentagon_join_zero_pos J hJ)
    linarith
  · rintro rfl
    have := K.t_pos hK.unit0 hK.unit1 (pentagon_join_zero_pos K hK)
    linarith

theorem createLine_vertices_length {F : Type} [LinearOrderedField F] (sq : F → F)
    (points : List (Vec F)) (w : Flt F) :
    (createLine sq points w).vertices.length = 4 * size points :=
  segments_vertices_length _ _ _ _ _

theorem createLine_indices_length {F : Type} [LinearOrderedField F] (sq : F → F)
    (points : List (Vec F)) (w : Flt F) :
    (createLine sq points w).indices.length = 6 * size points :=
  segments_indices_length _ _ _ _ _

/-- Counterexample to claim C8 as stated: for the pentagon of `main` with `w = 3` the
arc length stored for mesh vertex 1 is negative. -/
theorem pentagon_arc_negative :
    (createLine Real.sqrt (pentagon ℝ) (fin 3)).arc 1 < fin 0 ∧
    ¬ (fin 0 ≤ (createLine Real.sqrt (pentagon ℝ) (fin 3)).arc 1 ∧
      (createLine Real.sqrt (pentagon ℝ) (fin 3)).arc 1 ≤
        runningTotal Real.sqrt (pentagon ℝ) 5) := by
  obtain ⟨l, L, a, b, el, _, _, _, hpa, _, _, a1, _, _⟩ := pentagon_segment 0 (by norm_num)
  rw [runningTotal_pentagon.1] at el
  have hl : l = 0 := (Flt.fin.inj el).symm
  have ha := hpa rfl
  norm_num at a1
  rw [a1, hl]
  simp only [Flt.fin_lt, Flt.fin_le, not_and]
  constructor
  · linarith
  · intro h
    linarith

/-- Claim C8, as amended: for the pentagon of `main` with `w = 3` the mesh has 20
vertices and 30 indices, the arc lengths of the 18 mesh vertices other than 1 and 19 lie
in the closed interval from 0 to the perimeter (the sum of the five edge lengths), the
arc length of mesh vertex 1 is negative and that of mesh vertex 19 exceeds the
perimeter. -/
theorem pentagon_arcs_scenario :
    (createLine Real.sqrt (pentagon ℝ) (fin 3)).vertices.length = 20 ∧
    (createLine Real.sqrt (pentagon ℝ) (fin 3)).indices.length = 30 ∧
    List.Forall (fun k =>
        fin 0 ≤ (createLine Real.sqrt (pentagon ℝ) (fin 3)).arc k ∧
        (createLine Real.sqrt (pentagon ℝ) (fin 3)).arc k ≤
          runningTotal Real.sqrt (pentagon ℝ) 5)
      [0, 2, 3, 4, 5, 6, 7, 8, 9, 10, 11, 12, 13, 14, 15, 16, 17, 18] ∧
    (createLine Real.sqrt (pentagon ℝ) (fin 3)).arc 1 < fin 0 ∧
    runningTotal Real.sqrt (pentagon ℝ) 5 <
      (createLine Real.sqrt (pentagon ℝ) (fin 3)).arc 19 := by
  obtain ⟨r0, r1, r2, r3, r4, r5⟩ := runningTotal_pentagon
  obtain ⟨c0, c1, c2, c3, c4⟩ := lCurAt_pentagon
  obtain ⟨l0, L0, a0, b0, el0, eL0, ha0, hb0, hp0, _, x0, x1, x2, x3⟩ :=
    pentagon_segment 0 (by norm_num)
  obtain ⟨l1, L1, a1, b1, el1, eL1, ha1, hb1, _, _, x4, x5, x6, x7⟩ :=
    pentagon_segment 1 (by norm_num)
  obtain ⟨l2, L2, a2, b2, el2, eL2, ha2, hb2, _, _, x8, x9, x10, x11⟩ :=
    pentagon_segment 2 (by norm_num)
  obtain ⟨l3, L3, a3, b3, el3, eL3, ha3, hb3, _, _, x12, x13, x14, x15⟩ :=
    pentagon_segment 3 (by norm_num)
  obtain ⟨l4, L4, a4, b4, el4, eL4, ha4, hb4, _, hp4, x16, x17, x18, x19⟩ :=
    pentagon_segment 4 (by norm_num)
  rw [r0] at el0
  rw [r1] at el1
  rw [r2] at el2
  rw [r3] at el3
  rw [r4] at el4
  rw [c0] at eL0
  rw [c1] at eL1
  rw [c2] at eL2
  rw [c3] at eL3
  rw [c4] at eL4
  have hl0 := Flt.fin.inj el0
  have hl1 := Flt.fin.inj el1
  have hl2 := Flt.fin.inj el2
  have hl3 := Flt.fin.inj el3
  have hl4 := Flt.fin.inj el4
  have hL0 := Flt.fin.inj eL0
  have hL1 := Flt.fin.inj eL1
  have hL2 := Flt.fin.inj eL2
  have hL3 := Flt.fin.inj eL3
  have hL4 := Flt.fin.inj eL4
  have hpa := hp0 rfl
  have hpb := hp4 rfl
  have s0 : (12 : ℝ) ≤ √92500 := (Real.le_sqrt' (by norm_num)).mpr (by norm_num)
  have s1 : (0 : ℝ) ≤ √40000 := Real.sqrt_nonneg _
  have s2 : (0 : ℝ) ≤ √32500 := Real.sqrt_nonneg _
  have s3 : (0 : ℝ) ≤ √34900 := Real.sqrt_nonneg _
  have s4 : (12 : ℝ) ≤ √2900 := (Real.le_sqrt' (by norm_num)).mpr (by norm_num)
  obtain ⟨ha0l, ha0u⟩ := abs_le.mp ha0
  obtain ⟨hb0l, hb0u⟩ := abs_le.mp hb0
  obtain ⟨ha1l, ha1u⟩ := abs_le.mp ha1
  obtain ⟨hb1l, hb1u⟩ := abs_le.mp hb1
  obtain ⟨ha2l, ha2u⟩ := abs_le.mp ha2
  obtain ⟨hb2l, hb2u⟩ := abs_le.mp hb2
  obtain ⟨ha3l, ha3u⟩ := abs_le.mp ha3
  obtain ⟨hb3l, hb3u⟩ := abs_le.mp hb3
  obtain ⟨ha4l, ha4u⟩ := abs_le.mp ha4
  obtain ⟨hb4l, hb4u⟩ := abs_le.mp hb4
  norm_num at x0 x1 x2 x3 x4 x5 x6 x7 x8 x9 x10 x11 x12 x13 x14 x15 x16 x17 x18 x19
  refine ⟨by rw [createLine_vertices_length, size_pentagon],
    by rw [createLine_indices_length, size_pentagon], ?_, ?_, ?_⟩
  · simp only [List.forall_cons, List.Forall, x0, x2, x3, x4, x5, x6, x7, x8, x9, x10, x11,
      x12, x13, x14, x15, x16, x17, x18, r5, Flt.fin_le]
    subst hl0 hl1 hl2 hl3 hl4 hL0 hL1 hL2 hL3 hL4
    refine ⟨⟨?_, ?_⟩, ⟨?_, ?_⟩, ⟨?_, ?_⟩, ⟨?_, ?_⟩, ⟨?_, ?_⟩, ⟨?_, ?_⟩, ⟨?_, ?_⟩, ⟨?_, ?_⟩,
      ⟨?_, ?_⟩, ⟨?_, ?_⟩, ⟨?_, ?_⟩, ⟨?_, ?_⟩, ⟨?_, ?_⟩, ⟨?_, ?_⟩, ⟨?_, ?_⟩, ⟨?_, ?_⟩,
      ⟨?_, ?_⟩, ⟨?_, ?_⟩⟩ <;> linarith
  · rw [x1, ← hl0]
    simp only [Flt.fin_lt]
    linarith
  · rw [x19, r5, ← hl4, ← hL4]
    simp only [Flt.fin_lt]
    linarith

end Pentagon

end LineRendering
